import Mathlib

/-!
Verification of the MyWarehouse warehouse-manager core against its
natural-language specification.

The Python sources are shallowly embedded as executable Lean definitions:

* `categorizer.py` (normalization, pattern scoring, model-family extraction);
* `database.py` (customers / materials / serial_numbers / assignments tables
  and the serial-lifecycle operations), including the SQLite foreign-key
  semantics that the code enables with `PRAGMA foreign_keys = ON`
  (`ON DELETE CASCADE` on `assignments.serial`, FK checks on inserts);
* the schema-migration loop and default-admin seeding of `_ensure_schema`;
* the role hierarchy and caller-side management policy of
  `gui/user_management_gui.py`.

Modelling conventions: `last_modified` timestamps, row columns no claim
mentions (phone, email, image paths, prices, production dates, …) and the
password-hashing internals are omitted; SQLite `date('now')` is the `now`
field of the state; Python floats are modelled as exact rationals (every
weight in the categorizer is a small decimal and no claim depends on
binary-float rounding); Python `str.lower` is modelled as ASCII lowercasing
(all inputs appearing in claims are ASCII).
-/

namespace Warehouse

/-! ### Character and string utilities shared by the embeddings -/

/-- Word characters (Python `\w` of the `re` module), restricted to ASCII
(the categorizer only matches against normalized ASCII text). -/
def isWordChar (c : Char) : Bool := c.isAlpha || c.isDigit || c = '_'

/-- Whitespace in the sense of Python's `\s` / `str.split`, restricted to the
ASCII whitespace that can actually occur in the embedded inputs. -/
def isSpaceChar (c : Char) : Bool :=
  c = ' ' || c = '\t' || c = '\n' || c = '\r' || c = '\x0b' || c = '\x0c'

/-- Case-insensitive or case-sensitive character comparison. -/
def charEq (ci : Bool) (a b : Char) : Bool :=
  if ci then a.toLower = b.toLower else a = b

/-- Does `lit` occur at the head of `text` (under flag `ci`)? -/
def litHere (ci : Bool) : List Char → List Char → Bool
  | [], _ => true
  | _ :: _, [] => false
  | a :: as, b :: bs => charEq ci a b && litHere ci as bs

/-- A `\b` boundary holds before the current position: start of text or a
non-word character just before.  All embedded literals start with a word
character, so `\b` reduces to this test on the previous character. -/
def boundaryOk : Option Char → Bool
  | none => true
  | some c => !isWordChar c

/-- A trailing `\b` holds after a literal occurrence at the head of `text`:
end of text or a non-word character next. -/
def afterOk (lit text : List Char) : Bool :=
  match text.drop lit.length with
  | [] => true
  | c :: _ => !isWordChar c

/-- Scan `text` for an occurrence of `lit`; `leadB`/`trailB` demand `\b`
before/after, `prev` is the character preceding the current position. -/
def searchLit (ci leadB trailB : Bool) (lit : List Char) :
    Option Char → List Char → Bool
  | prev, [] =>
    (!leadB || boundaryOk prev) && litHere ci lit [] && (!trailB || afterOk lit [])
  | prev, c :: rest =>
    ((!leadB || boundaryOk prev) && litHere ci lit (c :: rest)
        && (!trailB || afterOk lit (c :: rest)))
      || searchLit ci leadB trailB lit (some c) rest

/-- Scan for `lit` immediately followed by a digit (embeds `SG\d`). -/
def searchLitDigit (ci : Bool) (lit : List Char) : List Char → Bool
  | [] => false
  | c :: rest =>
    (litHere ci lit (c :: rest)
        && (match (c :: rest).drop lit.length with
            | d :: _ => d.isDigit
            | [] => false))
      || searchLitDigit ci lit rest

/-- Python `str.split()`: whitespace-delimited words, empty words dropped.
`acc` holds the (reversed) characters of the word being read. -/
def wordsAux (acc : List Char) : List Char → List (List Char)
  | [] => if acc.isEmpty then [] else [acc.reverse]
  | c :: rest =>
    if isSpaceChar c then
      if acc.isEmpty then wordsAux [] rest else acc.reverse :: wordsAux [] rest
    else
      wordsAux (c :: acc) rest

def wordsL (cs : List Char) : List (List Char) := wordsAux [] cs

/-- Python `str.replace(lit, repl)`: left-to-right, non-overlapping.  The
`fuel` argument makes the recursion structural (each step consumes at least
one character, so `fuel = cs.length` never runs out). -/
def replaceAllAux (lit repl : List Char) : Nat → List Char → List Char
  | _, [] => []
  | 0, cs => cs
  | fuel + 1, c :: rest =>
    if lit ≠ [] ∧ litHere false lit (c :: rest) then
      repl ++ replaceAllAux lit repl fuel ((c :: rest).drop lit.length)
    else
      c :: replaceAllAux lit repl fuel rest

def replaceAllL (lit repl cs : List Char) : List Char :=
  replaceAllAux lit repl cs.length cs

/-! ### Categorizer (`warehouse_manager/categorizer.py`) -/

namespace Categorizer

/-- Embedding of `normalize` from `categorizer.py`: lowercase, substitute the greeklish
camera synonyms, replace every character outside `[a-z0-9\s]` by a space,
collapse whitespace runs and strip the ends (the last two steps are the
composition of `re.sub(r"\s+", " ", ·)` and `str.strip`, i.e. the
single-space join of the whitespace-delimited words). -/
def normalize (s : String) : String :=
  let cs := s.toList.map Char.toLower
  let cs := replaceAllL "κάμερα".toList "camera".toList cs
  let cs := replaceAllL "kamera".toList "camera".toList cs
  let cs := replaceAllL "καμερα".toList "camera".toList cs
  let cs := cs.map (fun c =>
    if (('a' ≤ c && c ≤ 'z') || ('0' ≤ c && c ≤ '9') || isSpaceChar c) then c else ' ')
  String.intercalate " " ((wordsL cs).map String.mk)

/-- Embedding of `extract_family` from `categorizer.py`:
`re.match(r"([A-Za-z]+-\d+[A-Za-z]*)(.*)", model)` and on success the first
group; otherwise the first whitespace token of `model`, or `""` for an empty
model.  (The character classes are disjoint from what follows them, so the
greedy match never backtracks and maximal munch is faithful.  On a nonempty
all-whitespace model the Python raises `IndexError`; we return `""` there,
a case no claim exercises.) -/
def extract_family (model : String) : String :=
  let cs := model.toList
  let letters := cs.takeWhile (fun c => c.isAlpha)
  let rest1 := cs.dropWhile (fun c => c.isAlpha)
  let fallback :=
    match wordsL cs with
    | [] => ""
    | w :: _ => String.mk w
  match letters, rest1 with
  | _ :: _, '-' :: rest2 =>
    let digits := rest2.takeWhile (fun c => c.isDigit)
    let rest3 := rest2.dropWhile (fun c => c.isDigit)
    if digits.isEmpty then fallback
    else String.mk (letters ++ ('-' :: digits) ++ rest3.takeWhile (fun c => c.isAlpha))
  | _, _ => fallback

/-- One alternative of a compiled `CATEGORY_PATTERNS` regex: a literal with
optional leading/trailing `\b`, optional required digit right after
(for `SG\d`), and a case-insensitivity flag. -/
structure Alt where
  leadB : Bool
  trailB : Bool
  digitAfter : Bool
  ci : Bool
  lit : String
  deriving Repr

def altMatch (a : Alt) (text : List Char) : Bool :=
  if a.digitAfter then searchLitDigit a.ci a.lit.toList text
  else searchLit a.ci a.leadB a.trailB a.lit.toList none text

/-- Embedding of `pattern.search(text)` for one compiled rule (a top-level alternation:
`\b` binds to its own alternative only). -/
def patMatches (alts : List Alt) (text : List Char) : Bool :=
  alts.any (fun a => altMatch a text)

/-- Embedding of `CATEGORY_PATTERNS` from `categorizer.py`, in source order:
`(compiled pattern, weight, category, label)`.  Note that the first rule,
`re.compile(r"\bDS-2CD")`, carries no `re.IGNORECASE` flag and is therefore
case-sensitive, and that `\bNVR\d*` matches exactly when `\bNVR` does. -/
def CATEGORY_PATTERNS : List (List Alt × ℚ × String × String) :=
  [ ([⟨true, false, false, false, "DS-2CD"⟩], 0.6, "Camera", "ds-2cd"),
    ([⟨true, true, false, true, "IPC"⟩], 0.5, "Camera", "ipc"),
    ([⟨true, false, false, true, "IP Cam"⟩, ⟨false, false, false, true, "IPCam"⟩,
      ⟨false, false, false, true, "Bullet"⟩, ⟨false, false, false, true, "Dome"⟩],
     0.4, "Camera", "cam_keyword"),
    ([⟨true, false, false, true, "NVR"⟩], 0.6, "NVR", "nvr"),
    ([⟨true, false, false, true, "DS-76"⟩, ⟨false, false, false, true, "DHI-NVR"⟩],
     0.5, "NVR", "nvr_prefix"),
    ([⟨true, true, false, true, "DVR"⟩], 0.5, "DVR", "dvr"),
    ([⟨true, true, false, true, "XVR"⟩], 0.5, "DVR", "xvr"),
    ([⟨true, true, false, true, "PoE"⟩], 0.3, "Switch", "poe"),
    ([⟨true, false, false, true, "Switch"⟩, ⟨false, false, true, true, "SG"⟩],
     0.5, "Switch", "switch"),
    ([⟨true, true, false, true, "Sensor"⟩, ⟨false, false, false, true, "PIR"⟩,
      ⟨false, false, false, true, "Motion"⟩], 0.5, "Sensor", "sensor"),
    ([⟨true, false, false, true, "Magnetic"⟩, ⟨false, false, false, true, "DoorContact"⟩],
     0.4, "Sensor", "doorcontact"),
    ([⟨true, true, false, true, "Panel"⟩, ⟨false, false, false, true, "Hub"⟩,
      ⟨false, false, false, true, "Control"⟩, ⟨false, false, false, true, "Keypad"⟩],
     0.5, "Panel", "panel"),
    ([⟨true, false, false, true, "DS-PK"⟩], 0.5, "Panel", "ds-pk"),
    ([⟨true, true, false, true, "Reader"⟩, ⟨false, false, false, true, "Access"⟩,
      ⟨false, false, false, true, "Lock"⟩, ⟨false, false, false, true, "Strike"⟩],
     0.5, "Access Control", "access"),
    ([⟨true, true, false, true, "Siren"⟩, ⟨false, false, false, true, "Horn"⟩],
     0.5, "Siren", "siren"),
    ([⟨true, true, false, true, "UPS"⟩, ⟨false, false, false, true, "PSU"⟩,
      ⟨false, false, false, true, "Power Supply"⟩], 0.5, "Power", "power") ]

/-- Embedding of `scores[cat] += w` on a `defaultdict(float)` whose key order is first-touch
insertion order (Python dict semantics, which `max` relies on for ties). -/
def addScore : List (String × ℚ) → String → ℚ → List (String × ℚ)
  | [], cat, w => [(cat, w)]
  | (c, v) :: rest, cat, w =>
    if c = cat then (c, v + w) :: rest else (c, v) :: addScore rest cat w

/-- Embedding of `evidence[cat].append(label)` on a `defaultdict(list)`. -/
def addEvidence : List (String × List String) → String → String → List (String × List String)
  | [], cat, lab => [(cat, [lab])]
  | (c, ls) :: rest, cat, lab =>
    if c = cat then (c, ls ++ [lab]) :: rest else (c, ls) :: addEvidence rest cat lab

/-- Embedding of `max(scores, key=scores.get)`: the first key (in insertion order) whose
score is maximal. -/
def bestCat : List (String × ℚ) → Option (String × ℚ)
  | [] => none
  | (c, v) :: rest =>
    match bestCat rest with
    | none => some (c, v)
    | some (c2, v2) => if v2 > v then some (c2, v2) else some (c, v)

/-- Deduplicate preserving first occurrences: Python's `set(text.split())`
iterates in an unspecified order; the order can only influence the insertion
order of alias-only categories (a documented tie-break non-guarantee), and
no claim below depends on it. -/
def dedupAux (seen : List String) : List String → List String
  | [] => []
  | x :: rest =>
    if seen.contains x then dedupAux seen rest
    else x :: dedupAux (seen ++ [x]) rest

def dedupF (l : List String) : List String := dedupAux [] l

/-- The four text fields of a material that `guess_category` reads. -/
structure CatMaterial where
  name : String
  model : String
  producer : String
  description : String
  deriving Repr

/-- Embedding of `guess_category(material, db)` from `categorizer.py`.  `aliases` is the
`category_aliases` table as the association list `(token, category)` that
`get_alias_map` returns (tokens are stored lowercased by
`learn_category_alias`).  Returns `(category, confidence, family, evidence)`.
The function is pure in `material` and the alias snapshot, exactly as in the
source. -/
def guess_category (m : CatMaterial) (aliases : List (String × String)) :
    Option String × ℚ × String × List String :=
  let text := normalize (String.intercalate " " [m.name, m.model, m.producer, m.description])
  let family := extract_family m.model
  let tl := text.toList
  let se : List (String × ℚ) × List (String × List String) :=
    CATEGORY_PATTERNS.foldl
      (fun se p =>
        if patMatches p.1 tl then
          (addScore se.1 p.2.2.1 p.2.1, addEvidence se.2 p.2.2.1 p.2.2.2)
        else se)
      ([], [])
  let tokens := dedupF ((wordsL tl).map String.mk)
  let se :=
    tokens.foldl
      (fun se tok =>
        match aliases.find? (fun kv => kv.1 = tok) with
        | some kv =>
          (addScore se.1 kv.2 0.25, addEvidence se.2 kv.2 ("alias:" ++ tok))
        | none => se)
      se
  match bestCat se.1 with
  | none => (none, 0, family, [])
  | some (c, v) =>
    (some c, min 1 v, family, ((se.2.find? (fun kv => kv.1 = c)).map (fun kv => kv.2)).getD [])

end Categorizer

/-! ### Role hierarchy and caller-side management policy
(`warehouse_manager/gui/user_management_gui.py`) -/

namespace UsersTab

/-- Embedding of `ROLE_LEVELS` from `user_management_gui.py`. -/
def ROLE_LEVELS : List (String × Int) :=
  [("viewer", 0), ("operator", 1), ("admin3", 2), ("admin2", 3), ("admin1", 4)]

/-- Embedding of `ALL_ROLES` from `user_management_gui.py`. -/
def ALL_ROLES : List String := ["viewer", "operator", "admin3", "admin2", "admin1"]

/-- Embedding of `UsersTab._role_level`: `ROLE_LEVELS.get(role, -1)`. -/
def role_level (role : String) : Int :=
  ((ROLE_LEVELS.find? (fun kv => kv.1 = role)).map (fun kv => kv.2)).getD (-1)

/-- Embedding of `UsersTab._can_manage_role`, the permission gate used by both
`_change_role` and `_delete_user`: strictly lower target level, with no
special case for `admin1`. -/
def can_manage_role (current_role target_role : String) : Bool :=
  role_level target_role < role_level current_role

/-- Embedding of `UsersTab._allowed_new_roles`, the role options offered by `_add_user`:
every role for `admin1`, strictly lower roles otherwise. -/
def allowed_new_roles (current_role : String) : List String :=
  ALL_ROLES.filter (fun role =>
    if current_role = "admin1" then true else role_level role < role_level current_role)

end UsersTab

/-! ### Schema migrations and default-admin seeding
(`database.py`: `_ensure_schema`, `get_schema_version`,
`_ensure_default_admin_user`, `add_user`, `delete_user`) -/

namespace Store

/-- A row of the `users` table (password hash and salt omitted: no claim
reads them). -/
structure UserRow where
  username : String
  role : String
  deriving Repr, DecidableEq

/-- The part of the store that the migration loop and the user operations
touch: the rows of the `schema_version` table, whether `_migration_3` has
created the `users` table, the `users` rows, and a trace of the migration
steps applied (in application order). -/
structure StoreState where
  version_rows : List Nat
  users_table_exists : Bool
  users : List UserRow
  migrations_applied : List Nat
  deriving Repr, DecidableEq

/-- Embedding of `get_schema_version`: `SELECT version FROM schema_version` and the first
row (the table holds a single row in every state the code produces). -/
def get_schema_version (s : StoreState) : Nat := s.version_rows.headD 0

/-- The effect of migration step `t` on the modelled state: `_migration_1`
and `_migration_2` create no object we model (`CREATE TABLE IF NOT EXISTS`
on tables outside this fragment, and a placeholder); `_migration_3` creates
the `users` table. -/
def applyMigration (t : Nat) (s : StoreState) : StoreState :=
  if t = 3 then { s with users_table_exists := true } else s

/-- One iteration of the migration loop of `_ensure_schema`: `v` is the
version read once before the loop; if `v < t` the migration runs and
`UPDATE schema_version SET version=t` rewrites every row of
`schema_version`.  The trace records each step actually applied. -/
def migStep (v : Nat) (st : StoreState) (t : Nat) : StoreState :=
  if v < t then
    let st := applyMigration t st
    { st with
      version_rows := st.version_rows.map (fun _ => t),
      migrations_applied := st.migrations_applied ++ [t] }
  else st

/-- The migration loop of `_ensure_schema` over the migration list
`[_migration_1, _migration_2, _migration_3]` (target versions 1, 2, 3). -/
def run_migrations (s : StoreState) : StoreState :=
  [1, 2, 3].foldl (migStep (get_schema_version s)) s

/-- Embedding of `add_user` (hashing omitted): inserts the row; a duplicate username
raises `sqlite3.IntegrityError` before any write, leaving the state
unchanged. -/
def add_user (s : StoreState) (username role : String) : StoreState :=
  if s.users.any (fun u => u.username = username) then s
  else { s with users := s.users ++ [⟨username, role⟩] }

/-- Embedding of `delete_user`: `DELETE FROM users WHERE username=?`. -/
def delete_user (s : StoreState) (username : String) : StoreState :=
  { s with users := s.users.filter (fun u => u.username ≠ username) }

/-- Embedding of `_ensure_default_admin_user`: a no-op when the `users` table does not
exist; otherwise, if `SELECT COUNT(*) FROM users` is zero, creates the
default `admin` user with role `admin1`. -/
def ensure_default_admin_user (s : StoreState) : StoreState :=
  if s.users_table_exists then
    if s.users.isEmpty then add_user s "admin" "admin1" else s
  else s

/-- Embedding of `_ensure_schema`, run on every `Database.__init__` (every startup):
create `schema_version` if missing, initialise it to `0` when empty, run the
migration loop, then call `_ensure_default_admin_user`. -/
def ensure_schema (s : StoreState) : StoreState :=
  let s := if s.version_rows.isEmpty then { s with version_rows := [0] } else s
  ensure_default_admin_user (run_migrations s)

/-- A store that has never been started: no `schema_version` rows, no
tables, no users. -/
def freshStore : StoreState := ⟨[], false, [], []⟩

end Store

/-! ### Inventory tables and serial-lifecycle operations (`database.py`)

The connection enables `PRAGMA foreign_keys = ON`, so the embedding models
SQLite's foreign-key behaviour declared in `_migration_1`:
`assignments.serial REFERENCES serial_numbers(serial) ON DELETE CASCADE`
(deleting a serial row deletes its assignment rows) and the FK checks on
`INSERT`/`UPDATE` (inserting an assignment for a missing customer, or
pointing `assigned_to` at a missing customer, raises `IntegrityError`). -/

namespace DB

/-- A row of `serial_numbers` (production/acquisition dates, price and
`extra_json` omitted: no claim reads them). -/
structure SerialRow where
  serial : String
  material_id : Nat
  warranty_expiration : Option String
  assigned_to : Option String
  deriving Repr, DecidableEq

/-- A row of `materials` (the columns the claims read). -/
structure MaterialRow where
  id : Nat
  name : String
  model : String
  is_used : Bool
  deriving Repr, DecidableEq

/-- A row of `assignments`. -/
structure AssignmentRow where
  id : Nat
  customer_id : String
  serial : String
  assigned_date : Nat
  material_id : Nat
  material_name : String
  material_model : String
  warranty_expiration : Option String
  deleted : Bool
  deriving Repr, DecidableEq

/-- The inventory fragment of the store.  `customers` keeps only the primary
keys (no claim reads the other columns).  `next_material_id` / `next_aid`
model the `AUTOINCREMENT` counters of `materials` and `assignments`; `now`
models SQLite's `date('now')`. -/
structure DBState where
  customers : List String
  materials : List MaterialRow
  serials : List SerialRow
  assignments : List AssignmentRow
  next_material_id : Nat
  next_aid : Nat
  now : Nat
  deriving Repr, DecidableEq

def initState : DBState := ⟨[], [], [], [], 1, 1, 0⟩

/-- Embedding of `add_customer` (columns beyond the id omitted): a duplicate id raises
`IntegrityError` before the commit, leaving the state unchanged. -/
def add_customer (s : DBState) (customer_id : String) : DBState :=
  if s.customers.contains customer_id then s
  else { s with customers := s.customers ++ [customer_id] }

/-- Embedding of `add_material`: inserts with the next autoincrement id (the Python
returns that id; callers use it as `material_id`). -/
def add_material (s : DBState) (name model : String) (is_used : Bool) : DBState :=
  { s with
    materials := s.materials ++ [⟨s.next_material_id, name, model, is_used⟩],
    next_material_id := s.next_material_id + 1 }

/-- One iteration of the `add_serials_to_material` loop: the `INSERT` is
skipped (caught `IntegrityError`, logged) when the serial already exists
(primary-key violation) or the material id does not exist (FK violation);
otherwise the new row starts unassigned with no warranty expiration set. -/
def addSerialStep (material_id : Nat) (s : DBState) (serial : String) : DBState :=
  if s.serials.any (fun r => r.serial = serial) || !s.materials.any (fun m => m.id = material_id) then
    s
  else
    { s with serials := s.serials ++ [⟨serial, material_id, none, none⟩] }

/-- Embedding of `add_serials_to_material`: bulk insert, skipping failing rows. -/
def add_serials_to_material (s : DBState) (material_id : Nat) (serials : List String) : DBState :=
  serials.foldl (addSerialStep material_id) s

/-- Embedding of `get_serials_by_material` (result order by `production_date` not
modelled; the claims only inspect membership). -/
def get_serials_by_material (s : DBState) (material_id : Nat)
    (include_assigned : Bool) : List SerialRow :=
  if include_assigned then
    s.serials.filter (fun r => r.material_id = material_id)
  else
    s.serials.filter (fun r => r.material_id = material_id ∧ r.assigned_to = none)

/-- Embedding of `delete_serials`: `DELETE FROM serial_numbers WHERE serial IN (...)`.
With `PRAGMA foreign_keys = ON`, deleting a serial row cascades to every
`assignments` row referencing it (`ON DELETE CASCADE`); the cascade fires
exactly for the serial values of the deleted rows. -/
def delete_serials (s : DBState) (serials : List String) : DBState :=
  let deleted := (s.serials.filter (fun r => serials.contains r.serial)).map
    (fun r => r.serial)
  { s with
    serials := s.serials.filter (fun r => !serials.contains r.serial),
    assignments := s.assignments.filter (fun a => !deleted.contains a.serial) }

/-- One iteration of the `resolve_serials_for_customer` loop: the input
serial is looked up in the `seen` map built from the
`SELECT serial, assigned_to … WHERE serial IN (...)` result and routed to
`valid` (present and unassigned) or `invalid` (missing or assigned).
(`seen` maps each found serial to its `assigned_to`; with the primary key on
`serial` this is exactly `find?` on the table.) -/
def resolveStep (s : DBState) (acc : List String × List String) (q : String) :
    List String × List String :=
  match s.serials.find? (fun r => r.serial = q) with
  | none => (acc.1, acc.2 ++ [q])
  | some row =>
    if row.assigned_to = none then (acc.1 ++ [q], acc.2)
    else (acc.1, acc.2 ++ [q])

/-- Embedding of `resolve_serials_for_customer`: empty input short-circuits, otherwise
every input serial is routed to one of the two output lists. -/
def resolve_serials_for_customer (s : DBState) (serials : List String) :
    List String × List String :=
  if serials.isEmpty then ([], [])
  else serials.foldl (resolveStep s) ([], [])

/-- The routing predicate of `resolveStep`: the serial exists and is
currently unassigned. -/
def availableB (s : DBState) (q : String) : Bool :=
  match s.serials.find? (fun r => r.serial = q) with
  | none => false
  | some row => decide (row.assigned_to = none)

/-- The failure modes of `assign_serial_to_customer`: the two explicit
`ValueError`s of the source, and the `IntegrityError` that SQLite raises on
the `INSERT`/`UPDATE` when the customer id does not exist (foreign keys are
enabled).  Each failure happens before any write is committed. -/
inductive AssignError
  | notAvailable
  | materialMissing
  | customerMissing
  deriving Repr, DecidableEq

/-- Embedding of `assign_serial_to_customer`: select the serial (must exist and be
unassigned), select its material, insert the assignment record snapshotting
the material name/model and the serial's warranty expiration, and mark the
serial assigned; all in one transaction committed at the end. -/
def assign_serial_to_customer (s : DBState) (customer_id serial : String) :
    Except AssignError DBState :=
  match s.serials.find? (fun r => r.serial = serial ∧ r.assigned_to = none) with
  | none => .error .notAvailable
  | some row =>
    match s.materials.find? (fun m => m.id = row.material_id) with
    | none => .error .materialMissing
    | some mat =>
      if s.customers.contains customer_id then
        .ok { s with
          assignments := s.assignments ++
            [⟨s.next_aid, customer_id, serial, s.now, row.material_id,
              mat.name, mat.model, row.warranty_expiration, false⟩],
          serials := s.serials.map (fun r =>
            if r.serial = serial then { r with assigned_to := some customer_id } else r),
          next_aid := s.next_aid + 1 }
      else .error .customerMissing

/-- Embedding of `assign_serial_to_customer` as a state transformer: on an exception the
Python object's state is simply unchanged. -/
def runAssign (s : DBState) (customer_id serial : String) : DBState :=
  match assign_serial_to_customer s customer_id serial with
  | .ok s2 => s2
  | .error _ => s

/-- The row `unassign_serial` selects:
`SELECT id FROM assignments WHERE serial=? AND deleted=0
 ORDER BY assigned_date DESC LIMIT 1`.
SQLite leaves the order of equal `assigned_date` rows unspecified; the
embedding breaks such ties towards the largest `id`.  Every theorem below
only uses this on states where at most one candidate exists, so the
tie-break is never load-bearing. -/
def pickLatest : List AssignmentRow → Option AssignmentRow
  | [] => none
  | a :: rest =>
    match pickLatest rest with
    | none => some a
    | some b =>
      if b.assigned_date > a.assigned_date
          || (b.assigned_date = a.assigned_date && b.id > a.id) then some b
      else some a

/-- Embedding of `unassign_serial`: locate the most recent non-deleted assignment of the
serial; if found, `DELETE` it (`force`) or set `deleted=1` (soft); in either
case clear the serial's `assigned_to`. -/
def unassign_serial (s : DBState) (serial : String) (force : Bool) : DBState :=
  let cands := s.assignments.filter (fun a => a.serial = serial ∧ a.deleted = false)
  let s1 :=
    match pickLatest cands with
    | some a =>
      if force then
        { s with assignments := s.assignments.filter (fun b => b.id ≠ a.id) }
      else
        { s with assignments := s.assignments.map (fun (b : AssignmentRow) =>
            if b.id = a.id then { b with deleted := true } else b) }
    | none => s
  { s1 with serials := s1.serials.map (fun (r : SerialRow) =>
      if r.serial = serial then { r with assigned_to := none } else r) }

/-- One iteration of the `transfer_serials_to_used` loop: a missing serial
is skipped (`continue`); an assigned serial whose holder matches
`from_customer` (or `from_customer` is unset) is first soft-unassigned; then
the owning material's `is_used` flag is set (the trailing
`UPDATE serial_numbers SET last_modified=…` touches no modelled column). -/
def transferStep (from_customer : Option String) (s : DBState) (serial : String) : DBState :=
  match s.serials.find? (fun r => r.serial = serial) with
  | none => s
  | some row =>
    let s1 :=
      if row.assigned_to ≠ none ∧ (from_customer = none ∨ row.assigned_to = from_customer) then
        unassign_serial s serial false
      else s
    { s1 with materials := s1.materials.map (fun m =>
        if m.id = row.material_id then { m with is_used := true } else m) }

/-- Embedding of `transfer_serials_to_used`: per-serial processing, not fatal to the
batch. -/
def transfer_serials_to_used (s : DBState) (serials : List String)
    (from_customer : Option String) : DBState :=
  serials.foldl (transferStep from_customer) s

/-- The number of active (non-deleted) assignment records referencing a
serial. -/
def countActive (s : DBState) (serial : String) : Nat :=
  (s.assignments.filter (fun a => a.serial = serial ∧ a.deleted = false)).length

/-- The serial-assignment invariant of the spec, in its inductive form: an
assigned serial is referenced by exactly one active assignment record, an
available one by none. -/
def SerialInv (s : DBState) : Prop :=
  ∀ r ∈ s.serials, countActive s r.serial = if r.assigned_to = none then 0 else 1

/-- Well-formedness of a database state: primary-key uniqueness of
`serial_numbers.serial`, `materials.id` and `assignments.id` (SQLite
enforces the first two; `AUTOINCREMENT` the third), the autoincrement
counters dominating the stored ids, the foreign keys from
`assignments.serial` and `serial_numbers.material_id`, and the
serial-assignment invariant.  Every reachable state satisfies it. -/
structure Inv (s : DBState) : Prop where
  serialsNodup : (s.serials.map (fun r => r.serial)).Nodup
  matsNodup : (s.materials.map (fun m => m.id)).Nodup
  asgNodup : (s.assignments.map (fun a => a.id)).Nodup
  aidBound : ∀ a ∈ s.assignments, a.id < s.next_aid
  midBound : ∀ m ∈ s.materials, m.id < s.next_material_id
  serialFK : ∀ a ∈ s.assignments, ∃ r ∈ s.serials, r.serial = a.serial
  materialFK : ∀ r ∈ s.serials, ∃ m ∈ s.materials, m.id = r.material_id
  serialInv : SerialInv s

/-- The states reachable through the embedded operations, starting from the
freshly migrated empty store.  (The remaining methods of `database.py` —
customer updates, material field updates, categorisation, user management —
write to none of `serial_numbers.assigned_to` / `assignments`, so they
cannot affect the serial-assignment invariant; `time` lets `date('now')`
advance between operations.) -/
inductive Reachable : DBState → Prop
  | init : Reachable initState
  | time (s : DBState) (t : Nat) : Reachable s → Reachable { s with now := t }
  | addCustomer (s : DBState) (cid : String) :
      Reachable s → Reachable (add_customer s cid)
  | addMaterial (s : DBState) (name model : String) (is_used : Bool) :
      Reachable s → Reachable (add_material s name model is_used)
  | addSerials (s : DBState) (mid : Nat) (serials : List String) :
      Reachable s → Reachable (add_serials_to_material s mid serials)
  | deleteSerials (s : DBState) (serials : List String) :
      Reachable s → Reachable (delete_serials s serials)
  | assign (s : DBState) (c q : String) :
      Reachable s → Reachable (runAssign s c q)
  | unassign (s : DBState) (q : String) (force : Bool) :
      Reachable s → Reachable (unassign_serial s q force)
  | transfer (s : DBState) (serials : List String) (fromC : Option String) :
      Reachable s → Reachable (transfer_serials_to_used s serials fromC)

end DB

end Warehouse

/-! ## Claim theorems -/

namespace Warehouse

/-- A state in which serial `S001` has one (soft-deleted) prior assignment
record: customer `C001`, one material with serials `S001`/`S002`, `S001`
assigned and then unassigned non-forced. -/
def c2state : DB.DBState :=
  DB.unassign_serial
    (DB.runAssign
      (DB.add_serials_to_material
        (DB.add_material (DB.add_customer DB.initState "C001")
          "Camera 4MP" "DS-2CD2343G2-I" false)
        1 ["S001", "S002"])
      "C001" "S001")
    "S001" false

/-- A state with serial `S1` assigned to `C001` and serial `S2` free. -/
def c6state : DB.DBState :=
  DB.runAssign
    (DB.add_serials_to_material
      (DB.add_material (DB.add_customer DB.initState "C001") "M" "X-1" false)
      1 ["S1", "S2"])
    "C001" "S1"

/-- The state after the C7 scenario's first step: customer `C001`, one
material (id 1) with serials `S001`/`S002`, and `S001` assigned to `C001`. -/
def c7base : DB.DBState :=
  DB.runAssign
    (DB.add_serials_to_material
      (DB.add_material (DB.add_customer DB.initState "C001")
        "Camera 4MP" "DS-2CD2343G2-I" false)
      1 ["S001", "S002"])
    "C001" "S001"

/-- A state with material 1 (`M` / `X-1`), its unassigned serial `S1`, and
no customers. -/
def c5state : DB.DBState :=
  DB.add_serials_to_material (DB.add_material DB.initState "M" "X-1" false) 1 ["S1"]

/-- The C7 scenario state before the assignment: customer `C001`, one
material (id 1) with unassigned serials `S001`/`S002`. -/
def c4base : DB.DBState :=
  DB.add_serials_to_material
    (DB.add_material (DB.add_customer DB.initState "C001")
      "Camera 4MP" "DS-2CD2343G2-I" false)
    1 ["S001", "S002"]

/-- Claim C3 (code_bug evidence): on the material
`{name := "Camera 4MP", model := "DS-2CD2343G2-I"}` with the other text
fields empty and an empty alias table, `guess_category` returns no category
with confidence `0` — not `"Camera"` with confidence `≥ 0.6` — and the model
family it returns is `"DS-2CD"`, not `"DS-2CD2343"` (contradicting
`extract_family`'s own docstring example).  The `\bDS-2CD` rule is compiled
without `re.IGNORECASE` while `normalize` lowercases and strips hyphens, so
that rule can match no normalized text. -/
theorem C3_guess_category_camera_scenario :
    Categorizer.guess_category ⟨"Camera 4MP", "DS-2CD2343G2-I", "", ""⟩ []
      = (none, 0, "DS-2CD", [])
    ∧ Categorizer.extract_family "DS-2CD2343G2-I" ≠ "DS-2CD2343" := by
  constructor
  · rfl
  · decide

/-- Claim C10 (code_bug evidence): the permission gate `_can_manage_role` that
`_change_role` and `_delete_user` both use compares levels strictly with no
exemption for the top-level role, so an `admin1` actor cannot manage an
`admin1` target — contradicting the claim and the module's own docstring
("`admin1` … may add, edit, or delete any user").  Only the add path
(`_allowed_new_roles`) special-cases `admin1`, offering it every role. -/
theorem C10_admin1_cannot_manage_admin1 :
    UsersTab.can_manage_role "admin1" "admin1" = false
    ∧ UsersTab.role_level "admin1" = 4
    ∧ UsersTab.allowed_new_roles "admin1" = UsersTab.ALL_ROLES := by
  decide

/-- Claim C8: the migration loop applied to a store with a single stored
version row `[v]`.  If `v` already equals the latest target version `3`,
the run is the identity (no step applied, version unchanged).  In general
the applied steps are exactly the targets above `v`, in ascending order,
each at most once and only when `v` is below it, and the stored version ends
at the last applied target (`3`) or stays `v` when nothing applies. -/
theorem C8_migration_idempotence (s : Store.StoreState) (v : Nat)
    (h : s.version_rows = [v]) :
    (v = 3 → Store.run_migrations s = s)
    ∧ (Store.run_migrations s).migrations_applied
        = s.migrations_applied ++ ([1, 2, 3].filter (fun t => v < t))
    ∧ ([1, 2, 3].filter (fun t => v < t)).Nodup
    ∧ List.Chain' (· < ·) ([1, 2, 3].filter (fun t => v < t))
    ∧ (∀ t ∈ [1, 2, 3].filter (fun t => v < t), v < t)
    ∧ (Store.run_migrations s).version_rows = [if v < 3 then 3 else v] := by
  have hv : Store.get_schema_version s = v := by
    simp [Store.get_schema_version, h]
  rcases s with ⟨rows, tbl, users, trace⟩
  simp only [Store.StoreState.mk.injEq] at h
  subst h
  match v with
  | 0 => refine ⟨by omega, ?_, ?_, ?_, ?_, ?_⟩ <;>
      simp [Store.run_migrations, Store.migStep, Store.applyMigration,
        Store.get_schema_version, List.filter]
  | 1 => refine ⟨by omega, ?_, ?_, ?_, ?_, ?_⟩ <;>
      simp [Store.run_migrations, Store.migStep, Store.applyMigration,
        Store.get_schema_version, List.filter]
  | 2 => refine ⟨by omega, ?_, ?_, ?_, ?_, ?_⟩ <;>
      simp [Store.run_migrations, Store.migStep, Store.applyMigration,
        Store.get_schema_version, List.filter]
  | (n + 3) =>
    have h1 : ¬ (n + 3 < 1) := by omega
    have h2 : ¬ (n + 3 < 2) := by omega
    have h3 : ¬ (n + 3 < 3) := by omega
    refine ⟨fun _ => ?_, ?_, ?_, ?_, ?_, ?_⟩ <;>
      simp [Store.run_migrations, Store.migStep, Store.applyMigration,
        Store.get_schema_version, List.filter, h1, h2, h3]

/-- Witness for C8 at a fully migrated store: re-running the migration loop
is a no-op. -/
theorem C8_migration_idempotence_witness :
    Store.run_migrations ⟨[3], true, [], [1, 2, 3]⟩ = ⟨[3], true, [], [1, 2, 3]⟩ :=
  (C8_migration_idempotence ⟨[3], true, [], [1, 2, 3]⟩ 3 rfl).1 rfl

/-- Claim C9 (counterexample): the default-admin seeding is *not* a one-time
bootstrap — `_ensure_schema` calls `_ensure_default_admin_user` on every
startup.  Starting a fresh store seeds `admin`; deleting that user and
starting again seeds it a second time. -/
theorem C9_seeding_recurs_counterexample :
    (Store.delete_user (Store.ensure_schema Store.freshStore) "admin").users = []
    ∧ (Store.ensure_schema
        (Store.delete_user (Store.ensure_schema Store.freshStore) "admin")).users
      = [⟨"admin", "admin1"⟩] := by
  decide

/-- Claim C9 (amended): on every startup, after the migrations have run, a
single default `admin` account with the highest privilege role `admin1` is
created if and only if the `users` table is empty at that startup (the check
is repeated each startup; it is not a one-time bootstrap). -/
theorem C9_default_admin_seeded_iff_users_empty (s : Store.StoreState)
    (h : Store.get_schema_version s < 3 ∨ s.users_table_exists = true) :
    (Store.ensure_schema s).users
      = (if s.users.isEmpty then [⟨"admin", "admin1"⟩] else s.users) := by
  rcases s with ⟨rows, tbl, users, trace⟩
  simp only [Store.get_schema_version] at h
  simp only [Store.ensure_schema]
  rcases rows with _ | ⟨r, rows⟩
  · simp only [List.headD] at h
    simp [Store.run_migrations, Store.migStep, Store.applyMigration,
      Store.get_schema_version, Store.ensure_default_admin_user, Store.add_user]
    cases users <;> simp
  · simp only [List.headD] at h
    by_cases h3 : r < 3
    · have h1 : r < 1 ∨ ¬ r < 1 := by omega
      simp only [List.isEmpty_cons, if_neg Bool.false_ne_true,
        Bool.false_eq_true, if_false]
      by_cases hr1 : r < 1 <;> by_cases hr2 : r < 2 <;>
        simp [Store.run_migrations, Store.migStep, Store.applyMigration,
          Store.get_schema_version, Store.ensure_default_admin_user,
          Store.add_user, hr1, hr2, h3] <;>
        cases users <;> simp
    · have htbl : tbl = true := by tauto
      have hr1 : ¬ r < 1 := by omega
      have hr2 : ¬ r < 2 := by omega
      simp only [List.isEmpty_cons, Bool.false_eq_true, if_false]
      simp [Store.run_migrations, Store.migStep, Store.applyMigration,
        Store.get_schema_version, Store.ensure_default_admin_user,
        Store.add_user, hr1, hr2, h3, htbl]
      cases users <;> simp

/-- Witness for the amended C9 at a fresh store: the first startup seeds the
default admin. -/
theorem C9_default_admin_seeded_witness :
    (Store.ensure_schema Store.freshStore).users
      = (if Store.freshStore.users.isEmpty then [⟨"admin", "admin1"⟩]
         else Store.freshStore.users) :=
  C9_default_admin_seeded_iff_users_empty Store.freshStore (Or.inl (by decide))

/-- Claim C2 (counterexample): `delete_serials` does *not* leave the
assignment history of the deleted serial unchanged.  In `c2state` the serial
`S001` has exactly one prior assignment record; after
`delete_serials(["S001"])` that record is gone — `PRAGMA foreign_keys = ON`
plus `assignments.serial … ON DELETE CASCADE` deletes it with the serial
row. -/
theorem C2_history_cascade_counterexample :
    (c2state.assignments.filter (fun a => a.serial = "S001")).length = 1
    ∧ ((DB.delete_serials c2state ["S001"]).assignments.filter
        (fun a => a.serial = "S001")).length = 0 := by
  decide

/-- Claim C2 (amended): for serials with prior assignment records,
`delete_serials(serials)` removes the serial rows — they no longer appear in
any `get_serials_by_material` result — and, through the enabled
`ON DELETE CASCADE` foreign key, also removes every assignment record
referencing the deleted serials; assignment records of all other serials are
retained unchanged.  (`hfk` is the foreign-key integrity of
`assignments.serial`, which SQLite enforces on every stored state.) -/
theorem C2_delete_serials_frame (s : DB.DBState) (qs : List String)
    (hfk : ∀ a ∈ s.assignments, ∃ r ∈ s.serials, r.serial = a.serial) :
    (∀ mid b q, q ∈ qs →
      ∀ r ∈ DB.get_serials_by_material (DB.delete_serials s qs) mid b, r.serial ≠ q)
    ∧ (∀ a ∈ (DB.delete_serials s qs).assignments, a.serial ∉ qs)
    ∧ (DB.delete_serials s qs).assignments
        = s.assignments.filter (fun a => !qs.contains a.serial) := by
  refine ⟨?_, ?_, ?_⟩
  · intro mid b q hq r hr hrq
    have hr2 : r ∈ (DB.delete_serials s qs).serials := by
      unfold DB.get_serials_by_material at hr
      cases b <;> simp_all [List.mem_filter]
    unfold DB.delete_serials at hr2
    simp only [List.mem_filter, Bool.not_eq_eq_eq_not, Bool.not_true,
      List.elem_eq_mem, decide_eq_false_iff_not] at hr2
    exact hr2.2 (hrq ▸ hq)
  · intro a ha haq
    unfold DB.delete_serials at ha
    simp only [List.mem_filter, Bool.not_eq_eq_eq_not, Bool.not_true,
      List.elem_eq_mem, decide_eq_false_iff_not] at ha
    obtain ⟨r0, hr0, hr0s⟩ := hfk a ha.1
    exact ha.2 (by
      simp only [List.mem_map, List.mem_filter]
      exact ⟨r0, ⟨hr0, by simp [List.elem_eq_mem, hr0s, haq]⟩, hr0s⟩)
  · unfold DB.delete_serials
    refine List.filter_congr ?_
    intro a ha
    simp only [List.elem_eq_mem, decide_eq_true_eq, List.mem_map, List.mem_filter,
      Bool.not_eq_eq_eq_not, Bool.not_not, decide_eq_decide]
    constructor
    · rintro ⟨r0, ⟨_, hr0q⟩, hr0s⟩
      exact hr0s ▸ hr0q
    · intro hin
      obtain ⟨r0, hr0, hr0s⟩ := hfk a ha
      exact ⟨r0, ⟨hr0, hr0s.symm ▸ hin⟩, hr0s⟩

/-- The `resolve_serials_for_customer` fold routes each input serial by the
`availableB` predicate, appending to the accumulator. -/
theorem resolve_foldl_spec (s : DB.DBState) (l : List String) :
    ∀ acc : List String × List String,
      l.foldl (DB.resolveStep s) acc
        = (acc.1 ++ l.filter (DB.availableB s),
           acc.2 ++ l.filter (fun q => !DB.availableB s q)) := by
  induction l with
  | nil => intro acc; simp
  | cons q l ih =>
    intro acc
    simp only [List.foldl_cons, ih]
    unfold DB.resolveStep DB.availableB
    cases hfind : s.serials.find? (fun r => r.serial = q) with
    | none => simp [hfind]
    | some row =>
      by_cases hrow : row.assigned_to = none <;> simp [hfind, hrow]

/-- With the primary key on `serial_numbers.serial`, `availableB` is the
existence of an unassigned row with that serial. -/
theorem availableB_iff (s : DB.DBState)
    (hnd : (s.serials.map (fun r => r.serial)).Nodup) (q : String) :
    DB.availableB s q = true
      ↔ ∃ r ∈ s.serials, r.serial = q ∧ r.assigned_to = none := by
  unfold DB.availableB
  cases hfind : s.serials.find? (fun r => r.serial = q) with
  | none =>
    simp only [Bool.false_eq_true, false_iff]
    rintro ⟨r, hr, hrq, -⟩
    have := List.find?_eq_none.mp hfind r hr
    simp [hrq] at this
  | some row =>
    have hrowq : row.serial = q := by
      have := List.find?_some hfind
      simpa using this
    have hrowmem : row ∈ s.serials := List.mem_of_find?_eq_some hfind
    simp only [decide_eq_true_eq]
    constructor
    · intro hnone
      exact ⟨row, hrowmem, hrowq, hnone⟩
    · rintro ⟨r, hr, hrq, hrnone⟩
      have : r = row :=
        List.inj_on_of_nodup_map hnd hr hrowmem (by rw [hrq, hrowq])
      exact this ▸ hrnone

/-- Claim C6: `resolve_serials_for_customer` partitions its input: the two
output lists are disjoint as sets, their union as a set is the input as a
set, `valid` holds exactly the input serials that exist in `serial_numbers`
with `assigned_to` null, and `invalid` exactly those missing or already
assigned.  (`hnd` is the `serial_numbers.serial` primary-key uniqueness,
which SQLite enforces on every stored state.) -/
theorem C6_resolve_partitions (s : DB.DBState)
    (hnd : (s.serials.map (fun r => r.serial)).Nodup) (serials : List String) :
    (∀ q, ¬(q ∈ (DB.resolve_serials_for_customer s serials).1
        ∧ q ∈ (DB.resolve_serials_for_customer s serials).2))
    ∧ (∀ q, (q ∈ (DB.resolve_serials_for_customer s serials).1
        ∨ q ∈ (DB.resolve_serials_for_customer s serials).2) ↔ q ∈ serials)
    ∧ (∀ q, q ∈ (DB.resolve_serials_for_customer s serials).1
        ↔ q ∈ serials ∧ ∃ r ∈ s.serials, r.serial = q ∧ r.assigned_to = none)
    ∧ (∀ q, q ∈ (DB.resolve_serials_for_customer s serials).2
        ↔ q ∈ serials ∧ ¬∃ r ∈ s.serials, r.serial = q ∧ r.assigned_to = none) := by
  have hres : DB.resolve_serials_for_customer s serials
      = (serials.filter (DB.availableB s),
         serials.filter (fun q => !DB.availableB s q)) := by
    have hstep : ∀ q, DB.resolveStep s ([], []) q
        = (if DB.availableB s q then [q] else [],
           if DB.availableB s q then [] else [q]) := by
      intro q
      unfold DB.resolveStep DB.availableB
      cases hfind : s.serials.find? (fun r => r.serial = q) with
      | none => simp
      | some row => by_cases hrow : row.assigned_to = none <;> simp [hrow]
    unfold DB.resolve_serials_for_customer
    cases serials with
    | nil => simp
    | cons q l =>
      simp only [List.isEmpty_cons, Bool.false_eq_true, if_false, List.foldl_cons,
        resolve_foldl_spec, hstep, List.filter_cons]
      by_cases hav : DB.availableB s q <;> simp [hav]
  rw [hres]
  refine ⟨?_, ?_, ?_, ?_⟩
  · intro q ⟨h1, h2⟩
    simp only [List.mem_filter, Bool.not_eq_eq_eq_not, Bool.not_true] at h1 h2
    rw [h1.2] at h2
    exact absurd h2.2 (by simp)
  · intro q
    constructor
    · rintro (h | h) <;> exact (List.mem_filter.mp h).1
    · intro hq
      by_cases hav : DB.availableB s q
      · exact Or.inl (List.mem_filter.mpr ⟨hq, hav⟩)
      · exact Or.inr (List.mem_filter.mpr ⟨hq, by simp [hav]⟩)
  · intro q
    rw [List.mem_filter, availableB_iff s hnd q]
  · intro q
    rw [List.mem_filter]
    have := availableB_iff s hnd q
    constructor
    · rintro ⟨hq, hnav⟩
      refine ⟨hq, fun hex => ?_⟩
      have := this.mpr hex
      simp [this] at hnav
    · rintro ⟨hq, hnex⟩
      refine ⟨hq, ?_⟩
      by_cases hav : DB.availableB s q
      · exact absurd (this.mp hav) hnex
      · simp [hav]

/-- Witness for C6: a state with one assigned and one free serial, queried
with a present-free, present-assigned and missing serial. -/
theorem C6_resolve_partitions_witness :
    (∀ q, ¬(q ∈ (DB.resolve_serials_for_customer c6state ["S1", "S2", "S9"]).1
        ∧ q ∈ (DB.resolve_serials_for_customer c6state ["S1", "S2", "S9"]).2))
    ∧ (∀ q, (q ∈ (DB.resolve_serials_for_customer c6state ["S1", "S2", "S9"]).1
        ∨ q ∈ (DB.resolve_serials_for_customer c6state ["S1", "S2", "S9"]).2)
        ↔ q ∈ ["S1", "S2", "S9"])
    ∧ (∀ q, q ∈ (DB.resolve_serials_for_customer c6state ["S1", "S2", "S9"]).1
        ↔ q ∈ ["S1", "S2", "S9"]
            ∧ ∃ r ∈ c6state.serials, r.serial = q ∧ r.assigned_to = none)
    ∧ (∀ q, q ∈ (DB.resolve_serials_for_customer c6state ["S1", "S2", "S9"]).2
        ↔ q ∈ ["S1", "S2", "S9"]
            ∧ ¬∃ r ∈ c6state.serials, r.serial = q ∧ r.assigned_to = none) :=
  C6_resolve_partitions c6state (by decide) ["S1", "S2", "S9"]

/-- Embedding of `unassign_serial` never changes the number of stored assignment records
except in `force` mode; in soft mode it only flips `deleted` flags. -/
theorem unassign_soft_assignments_length (s : DB.DBState) (q : String) :
    (DB.unassign_serial s q false).assignments.length = s.assignments.length := by
  unfold DB.unassign_serial
  split
  case isTrue h => exact absurd h (by simp)
  case isFalse h =>
    dsimp only
    split <;> simp

/-- One `transfer_serials_to_used` iteration keeps the number of assignment
records (a missing serial is skipped; an assigned one is soft-unassigned). -/
theorem transferStep_assignments_length (from? : Option String) (s : DB.DBState)
    (q : String) :
    (DB.transferStep from? s q).assignments.length = s.assignments.length := by
  unfold DB.transferStep
  cases hfind : s.serials.find? (fun r => r.serial = q) with
  | none => rfl
  | some row =>
    by_cases hc : row.assigned_to ≠ none
        ∧ (from? = none ∨ row.assigned_to = from?) <;>
      simp [hc, unassign_soft_assignments_length]

/-- Claim C7: `transfer_serials_to_used` processes each serial independently:
a missing serial is skipped without aborting the batch; no assignment record
is ever removed (per-batch, the history length is preserved — unassignment
is soft); an assigned serial whose holder matches `from_customer` (or with
`from_customer` unset) ends unassigned with its owning material's `used`
flag set; and in the concrete scenario, after assigning `S001` of material 1
to `C001`, transferring `S002` leaves `S001` assigned to `C001` while
material 1 becomes used. -/
theorem C7_transfer_per_serial (s : DB.DBState) (from? : Option String) :
    (∀ q rest, s.serials.find? (fun r => r.serial = q) = none →
      DB.transfer_serials_to_used s (q :: rest) from?
        = DB.transfer_serials_to_used s rest from?)
    ∧ (∀ qs, (DB.transfer_serials_to_used s qs from?).assignments.length
        = s.assignments.length)
    ∧ (∀ q row c, s.serials.find? (fun r => r.serial = q) = some row →
        row.assigned_to = some c → (from? = none ∨ from? = some c) →
        (∀ r ∈ (DB.transfer_serials_to_used s [q] from?).serials,
          r.serial = q → r.assigned_to = none)
        ∧ (∀ m ∈ (DB.transfer_serials_to_used s [q] from?).materials,
          m.id = row.material_id → m.is_used = true))
    ∧ ((DB.transfer_serials_to_used c7base ["S002"] none).serials.find?
        (fun r => r.serial = "S001") = some ⟨"S001", 1, none, some "C001"⟩
      ∧ (DB.transfer_serials_to_used c7base ["S002"] none).materials
        = [⟨1, "Camera 4MP", "DS-2CD2343G2-I", true⟩]) := by
  refine ⟨?_, ?_, ?_, by decide⟩
  · intro q rest h
    simp [DB.transfer_serials_to_used, DB.transferStep, h]
  · intro qs
    induction qs generalizing s with
    | nil => rfl
    | cons q rest ih =>
      simp [DB.transfer_serials_to_used, List.foldl_cons] at ih ⊢
      rw [ih, transferStep_assignments_length]
  · intro q row c hfind hrow hfrom
    have hcond : row.assigned_to ≠ none ∧ (from? = none ∨ row.assigned_to = from?) := by
      constructor
      · simp [hrow]
      · rcases hfrom with h | h
        · exact Or.inl h
        · exact Or.inr (by rw [hrow, h])
    constructor
    · intro r hr hq
      simp only [DB.transfer_serials_to_used, List.foldl_cons, List.foldl_nil,
        DB.transferStep, hfind, if_pos hcond] at hr
      simp only [DB.unassign_serial] at hr
      rcases hp : DB.pickLatest
          (s.assignments.filter (fun a => a.serial = q ∧ a.deleted = false)) with
        _ | a <;>
        simp only [hp] at hr <;>
        · simp only [List.mem_map] at hr
          obtain ⟨r0, _, hr0⟩ := hr
          subst hr0
          by_cases hq0 : r0.serial = q <;> simp_all
    · intro m hm hmid
      simp only [DB.transfer_serials_to_used, List.foldl_cons, List.foldl_nil,
        DB.transferStep, hfind, if_pos hcond] at hm
      simp only [List.mem_map] at hm
      obtain ⟨m0, _, hm0⟩ := hm
      subst hm0
      by_cases hid0 : m0.id = row.material_id <;> simp_all

/-- Witness for C7: the skip conjunct applied to a missing serial, and the
assigned-holder conjunct applied to `S001` in `c7base`. -/
theorem C7_transfer_per_serial_witness :
    DB.transfer_serials_to_used c7base ["S009"] none
      = DB.transfer_serials_to_used c7base [] none
    ∧ (∀ r ∈ (DB.transfer_serials_to_used c7base ["S001"] none).serials,
        r.serial = "S001" → r.assigned_to = none) :=
  ⟨(C7_transfer_per_serial c7base none).1 "S009" [] (by decide),
   ((C7_transfer_per_serial c7base none).2.2.1 "S001" ⟨"S001", 1, none, some "C001"⟩
      "C001" (by decide) rfl (Or.inl rfl)).1⟩

/-- Claim C5 (counterexample): `assign_serial_to_customer` can fail although
the serial exists and is unassigned — with `PRAGMA foreign_keys = ON`, the
`INSERT INTO assignments` raises `sqlite3.IntegrityError` when the customer
id does not exist.  In `c5state`, serial `S1` exists and is unassigned, yet
assigning it to the nonexistent customer `C9` fails. -/
theorem C5_missing_customer_counterexample :
    DB.assign_serial_to_customer c5state "C9" "S1"
      = .error DB.AssignError.customerMissing
    ∧ (∃ r ∈ c5state.serials, r.serial = "S1" ∧ r.assigned_to = none) := by
  constructor
  · rfl
  · exact ⟨⟨"S1", 1, none, none⟩, by decide, rfl, rfl⟩

/-- Claim C5 (amended): `assign_serial_to_customer(c, q)` fails if and only if
the serial does not exist or is already assigned *or the customer id does
not reference an existing customer* (a foreign-key violation of the
`INSERT`).  On failure the state is unchanged; on success the operation
atomically appends exactly one assignment record — snapshotting the
material's name and model and the serial's warranty expiration — and sets
the serial's `assigned_to` to the customer, touching nothing else.
(`hmat` is the `serial_numbers.material_id` foreign-key integrity, which
SQLite enforces on every stored state; it rules out the defensive
`Material for serial … not found` branch of the source.) -/
theorem C5_assign_failure_iff (s : DB.DBState)
    (hmat : ∀ r ∈ s.serials, ∃ m ∈ s.materials, m.id = r.material_id)
    (c q : String) :
    ((∃ e, DB.assign_serial_to_customer s c q = .error e)
      ↔ ((¬∃ r ∈ s.serials, r.serial = q ∧ r.assigned_to = none)
          ∨ c ∉ s.customers))
    ∧ (∀ e, DB.assign_serial_to_customer s c q = .error e → DB.runAssign s c q = s)
    ∧ (∀ s2, DB.assign_serial_to_customer s c q = .ok s2 →
        ∃ row ∈ s.serials, row.serial = q ∧ row.assigned_to = none
          ∧ ∃ mat ∈ s.materials, mat.id = row.material_id
          ∧ s2.assignments = s.assignments ++
              [⟨s.next_aid, c, q, s.now, row.material_id, mat.name, mat.model,
                row.warranty_expiration, false⟩]
          ∧ s2.serials = s.serials.map (fun r =>
              if r.serial = q then { r with assigned_to := some c } else r)
          ∧ s2.customers = s.customers ∧ s2.materials = s.materials
          ∧ s2.next_aid = s.next_aid + 1
          ∧ s2.next_material_id = s.next_material_id ∧ s2.now = s.now) := by
  refine ⟨?_, ?_, ?_⟩
  · unfold DB.assign_serial_to_customer
    cases hfind : s.serials.find? (fun r => r.serial = q ∧ r.assigned_to = none) with
    | none =>
      have hno : ¬∃ r ∈ s.serials, r.serial = q ∧ r.assigned_to = none := by
        rintro ⟨r, hr, hrq, hrn⟩
        have hcontra := List.find?_eq_none.mp hfind r hr
        simp [hrq, hrn] at hcontra
      exact iff_of_true ⟨.notAvailable, rfl⟩ (Or.inl hno)
    | some row =>
      dsimp only
      have hrowp : row.serial = q ∧ row.assigned_to = none := by
        have := List.find?_some hfind
        simpa using this
      have hrowmem : row ∈ s.serials := List.mem_of_find?_eq_some hfind
      have hex : ∃ r ∈ s.serials, r.serial = q ∧ r.assigned_to = none :=
        ⟨row, hrowmem, hrowp.1, hrowp.2⟩
      cases hfind2 : s.materials.find? (fun m => m.id = row.material_id) with
      | none =>
        obtain ⟨m, hm, hmid⟩ := hmat row hrowmem
        have hcontra := List.find?_eq_none.mp hfind2 m hm
        simp [hmid] at hcontra
      | some mat =>
        dsimp only
        by_cases hc : s.customers.contains c
        · rw [if_pos hc]
          refine iff_of_false ?_ ?_
          · rintro ⟨e, he⟩
            simp at he
          · rintro (hne | hnc)
            · exact hne hex
            · exact hnc (by simpa [List.elem_eq_mem] using hc)
        · rw [if_neg hc]
          refine iff_of_true ⟨.customerMissing, rfl⟩ (Or.inr ?_)
          simpa [List.elem_eq_mem] using hc
  · intro e he
    unfold DB.runAssign
    rw [he]
  · intro s2 hok
    unfold DB.assign_serial_to_customer at hok
    cases hfind : s.serials.find? (fun r => r.serial = q ∧ r.assigned_to = none) with
    | none => rw [hfind] at hok; cases hok
    | some row =>
      rw [hfind] at hok
      dsimp only at hok
      have hrowp : row.serial = q ∧ row.assigned_to = none := by
        have := List.find?_some hfind
        simpa using this
      have hrowmem : row ∈ s.serials := List.mem_of_find?_eq_some hfind
      cases hfind2 : s.materials.find? (fun m => m.id = row.material_id) with
      | none => rw [hfind2] at hok; cases hok
      | some mat =>
        rw [hfind2] at hok
        dsimp only at hok
        have hmatp : mat.id = row.material_id := by
          have := List.find?_some hfind2
          simpa using this
        have hmatmem : mat ∈ s.materials := List.mem_of_find?_eq_some hfind2
        by_cases hc : s.customers.contains c
        · rw [if_pos hc] at hok
          cases hok
          exact ⟨row, hrowmem, hrowp.1, hrowp.2, mat, hmatmem, hmatp,
            rfl, rfl, rfl, rfl, rfl, rfl, rfl⟩
        · rw [if_neg hc] at hok
          cases hok

/-- Witness for the amended C5: in `c5state` extended with customer `C001`,
assigning free serial `S1` succeeds with the described effect, and the
failure characterisation holds. -/
theorem C5_assign_failure_iff_witness :
    ((∃ e, DB.assign_serial_to_customer (DB.add_customer c5state "C001") "C001" "S1"
        = .error e)
      ↔ ((¬∃ r ∈ (DB.add_customer c5state "C001").serials,
            r.serial = "S1" ∧ r.assigned_to = none)
          ∨ "C001" ∉ (DB.add_customer c5state "C001").customers))
    ∧ (∀ e, DB.assign_serial_to_customer (DB.add_customer c5state "C001") "C001" "S1"
          = .error e →
        DB.runAssign (DB.add_customer c5state "C001") "C001" "S1"
          = DB.add_customer c5state "C001")
    ∧ (∀ s2, DB.assign_serial_to_customer (DB.add_customer c5state "C001") "C001" "S1"
          = .ok s2 →
        ∃ row ∈ (DB.add_customer c5state "C001").serials,
          row.serial = "S1" ∧ row.assigned_to = none
          ∧ ∃ mat ∈ (DB.add_customer c5state "C001").materials,
            mat.id = row.material_id
          ∧ s2.assignments = (DB.add_customer c5state "C001").assignments ++
              [⟨(DB.add_customer c5state "C001").next_aid, "C001", "S1",
                (DB.add_customer c5state "C001").now, row.material_id,
                mat.name, mat.model, row.warranty_expiration, false⟩]
          ∧ s2.serials = (DB.add_customer c5state "C001").serials.map (fun r =>
              if r.serial = "S1" then { r with assigned_to := some "C001" } else r)
          ∧ s2.customers = (DB.add_customer c5state "C001").customers
          ∧ s2.materials = (DB.add_customer c5state "C001").materials
          ∧ s2.next_aid = (DB.add_customer c5state "C001").next_aid + 1
          ∧ s2.next_material_id = (DB.add_customer c5state "C001").next_material_id
          ∧ s2.now = (DB.add_customer c5state "C001").now) :=
  C5_assign_failure_iff (DB.add_customer c5state "C001") (by decide) "C001" "S1"

/-- Witness for the amended C2 at `c2state`. -/
theorem C2_delete_serials_frame_witness :
    (∀ mid b q, q ∈ ["S001"] →
      ∀ r ∈ DB.get_serials_by_material (DB.delete_serials c2state ["S001"]) mid b,
        r.serial ≠ q)
    ∧ (∀ a ∈ (DB.delete_serials c2state ["S001"]).assignments, a.serial ∉ ["S001"])
    ∧ (DB.delete_serials c2state ["S001"]).assignments
        = c2state.assignments.filter (fun a => !(["S001"].contains a.serial)) :=
  C2_delete_serials_frame c2state ["S001"] (by decide)

/-! ### Preservation of the serial-assignment invariant -/

/-- Filtering by `keep` drops no element satisfying `p`, so the `p`-count
survives. -/
theorem length_filter_filter_of_imp {α : Type} (p keep : α → Bool) (l : List α)
    (h : ∀ b ∈ l, p b = true → keep b = true) :
    ((l.filter keep).filter p).length = (l.filter p).length := by
  induction l with
  | nil => rfl
  | cons b l ih =>
    have ih2 := ih (fun x hx hpx => h x (List.mem_cons_of_mem b hx) hpx)
    by_cases hk : keep b = true
    · by_cases hp : p b = true
      · rw [List.filter_cons_of_pos hk, List.filter_cons_of_pos hp,
          List.filter_cons_of_pos hp, List.length_cons, List.length_cons, ih2]
      · rw [List.filter_cons_of_pos hk, List.filter_cons_of_neg hp,
          List.filter_cons_of_neg hp, ih2]
    · have hp : ¬ p b = true := fun hpb => hk (h b (List.mem_cons_self b l) hpb)
      rw [List.filter_cons_of_neg hk, List.filter_cons_of_neg hp, ih2]

/-- Mapping by `f` does not change `p`, so the `p`-count survives. -/
theorem length_filter_map_congr {α : Type} (f : α → α) (p : α → Bool) (l : List α)
    (h : ∀ b ∈ l, p (f b) = p b) :
    ((l.map f).filter p).length = (l.filter p).length := by
  induction l with
  | nil => rfl
  | cons b l ih =>
    have ih2 := ih (fun x hx => h x (List.mem_cons_of_mem b hx))
    have hb := h b (List.mem_cons_self b l)
    rw [List.map_cons]
    by_cases hp : p b = true
    · rw [List.filter_cons_of_pos (hb.trans hp), List.filter_cons_of_pos hp,
        List.length_cons, List.length_cons, ih2]
    · rw [List.filter_cons_of_neg (fun hfb => hp (hb.symm.trans hfb)),
        List.filter_cons_of_neg hp, ih2]

/-- Helper: `countActive` only reads the `assignments` list. -/
theorem countActive_congr (s s2 : DB.DBState) (q : String)
    (h : s2.assignments = s.assignments) :
    DB.countActive s2 q = DB.countActive s q := by
  unfold DB.countActive
  rw [h]

/-- The fresh database satisfies the invariant. -/
theorem inv_initState : DB.Inv DB.initState := by
  constructor <;> simp [DB.initState, DB.SerialInv]

/-- Embedding of `add_customer` touches only `customers`. -/
theorem inv_add_customer (s : DB.DBState) (cid : String) (h : DB.Inv s) :
    DB.Inv (DB.add_customer s cid) := by
  unfold DB.add_customer
  split
  · exact h
  · obtain ⟨h1, h2, h3, h4, h5, h6, h7, h8⟩ := h
    exact ⟨h1, h2, h3, h4, h5, h6, h7, h8⟩

/-- Advancing `now` preserves the invariant. -/
theorem inv_time (s : DB.DBState) (t : Nat) (h : DB.Inv s) :
    DB.Inv { s with now := t } := by
  obtain ⟨h1, h2, h3, h4, h5, h6, h7, h8⟩ := h
  exact ⟨h1, h2, h3, h4, h5, h6, h7, h8⟩

/-- Embedding of `add_material` inserts a row with the fresh autoincrement id. -/
theorem inv_add_material (s : DB.DBState) (n m : String) (u : Bool)
    (h : DB.Inv s) : DB.Inv (DB.add_material s n m u) := by
  obtain ⟨h1, h2, h3, h4, h5, h6, h7, h8⟩ := h
  unfold DB.add_material
  refine ⟨h1, ?_, h3, h4, ?_, h6, ?_, h8⟩
  · dsimp only
    rw [List.map_append, List.nodup_append]
    refine ⟨h2, List.nodup_singleton _, ?_⟩
    rw [List.map_singleton, List.disjoint_singleton]
    dsimp only
    intro hx
    obtain ⟨mm, hmm, hmmx⟩ := List.mem_map.mp hx
    have hlt := h5 mm hmm
    omega
  · intro mm hmm
    dsimp only at hmm ⊢
    rcases List.mem_append.mp hmm with hmm | hmm
    · have := h5 mm hmm
      omega
    · rw [List.mem_singleton] at hmm
      subst hmm
      dsimp only
      omega
  · intro r hr
    obtain ⟨mm, hmm, hid⟩ := h7 r hr
    exact ⟨mm, List.mem_append_left _ hmm, hid⟩

/-- One `add_serials_to_material` insert: the new serial is fresh and starts
unassigned, so it has no active assignments (by the `assignments.serial`
foreign key). -/
theorem inv_addSerialStep (mid : Nat) (s : DB.DBState) (q : String)
    (h : DB.Inv s) : DB.Inv (DB.addSerialStep mid s q) := by
  unfold DB.addSerialStep
  split
  · exact h
  case isFalse hguard =>
    simp only [Bool.or_eq_true, not_or, Bool.not_eq_true, Bool.not_eq_false] at hguard
    obtain ⟨hfresh, hmat⟩ := hguard
    have hfresh2 : ∀ r ∈ s.serials, ¬ r.serial = q := by
      intro r hr
      have := List.any_eq_false.mp hfresh r hr
      simpa using this
    have hmat2 : ∃ m ∈ s.materials, m.id = mid := by
      rw [Bool.not_eq_false'] at hmat
      obtain ⟨m, hm, hmid⟩ := List.any_eq_true.mp hmat
      exact ⟨m, hm, by simpa using hmid⟩
    obtain ⟨h1, h2, h3, h4, h5, h6, h7, h8⟩ := h
    refine ⟨?_, h2, h3, h4, h5, ?_, ?_, ?_⟩
    · dsimp only
      rw [List.map_append, List.nodup_append, List.map_singleton,
        List.disjoint_singleton]
      refine ⟨h1, List.nodup_singleton _, ?_⟩
      dsimp only
      intro hx
      obtain ⟨r, hr, hrq⟩ := List.mem_map.mp hx
      exact hfresh2 r hr hrq
    · intro a ha
      obtain ⟨r, hr, hrs⟩ := h6 a ha
      exact ⟨r, List.mem_append_left _ hr, hrs⟩
    · intro r hr
      dsimp only at hr
      rcases List.mem_append.mp hr with hr | hr
      · exact h7 r hr
      · rw [List.mem_singleton] at hr
        subst hr
        exact hmat2
    · intro r hr
      dsimp only at hr
      rcases List.mem_append.mp hr with hr | hr
      · have := h8 r hr
        rw [DB.countActive] at this ⊢
        dsimp only
        exact this
      · rw [List.mem_singleton] at hr
        subst hr
        dsimp only
        rw [if_pos rfl, DB.countActive]
        dsimp only
        rw [List.length_eq_zero, List.filter_eq_nil_iff]
        intro a ha hp
        obtain ⟨r, hr, hrs⟩ := h6 a ha
        simp only [decide_eq_true_eq] at hp
        exact hfresh2 r hr (by rw [hrs, hp.1])

/-- Embedding of `add_serials_to_material` preserves the invariant. -/
theorem inv_add_serials (s : DB.DBState) (mid : Nat) (serials : List String)
    (h : DB.Inv s) : DB.Inv (DB.add_serials_to_material s mid serials) := by
  induction serials generalizing s with
  | nil => exact h
  | cons q rest ih =>
    exact ih (DB.addSerialStep mid s q) (inv_addSerialStep mid s q h)

/-- Embedding of `delete_serials` preserves the invariant: the serial rows go away and
the `ON DELETE CASCADE` removes exactly their assignment records. -/
theorem inv_delete_serials (s : DB.DBState) (qs : List String)
    (h : DB.Inv s) : DB.Inv (DB.delete_serials s qs) := by
  obtain ⟨h1, h2, h3, h4, h5, h6, h7, h8⟩ := h
  have hkeep : ∀ (x : String), (¬ x ∈ qs) →
      ∀ b ∈ s.assignments, b.serial = x →
        (!((s.serials.filter (fun r => qs.contains r.serial)).map
            (fun r => r.serial)).contains b.serial) = true := by
    intro x hx b _ hbx
    simp only [hbx, Bool.not_eq_true', List.elem_eq_mem, decide_eq_false_iff_not]
    intro hmem
    obtain ⟨r, hr, hrx⟩ := List.mem_map.mp hmem
    have := (List.mem_filter.mp hr).2
    rw [hrx] at this
    simp only [List.elem_eq_mem, decide_eq_true_eq] at this
    exact hx this
  unfold DB.delete_serials
  refine ⟨?_, h2, ?_, ?_, h5, ?_, ?_, ?_⟩
  · exact List.Nodup.sublist
      (List.Sublist.map _ (List.filter_sublist s.serials)) h1
  · exact List.Nodup.sublist
      (List.Sublist.map _ (List.filter_sublist s.assignments)) h3
  · intro a ha
    exact h4 a (List.mem_of_mem_filter ha)
  · intro a ha
    dsimp only at ha
    have hmem := List.mem_of_mem_filter ha
    have hkeepa := (List.mem_filter.mp ha).2
    simp only [Bool.not_eq_eq_eq_not, Bool.not_true, List.elem_eq_mem,
      decide_eq_false_iff_not] at hkeepa
    obtain ⟨r, hr, hrs⟩ := h6 a hmem
    refine ⟨r, List.mem_filter.mpr ⟨hr, ?_⟩, hrs⟩
    simp only [Bool.not_eq_eq_eq_not, Bool.not_true, List.elem_eq_mem,
      decide_eq_false_iff_not]
    intro hrq
    exact hkeepa (by
      refine List.mem_map.mpr ⟨r, List.mem_filter.mpr ⟨hr, ?_⟩, hrs⟩
      simp [List.elem_eq_mem, hrq])
  · intro r hr
    exact h7 r (List.mem_of_mem_filter hr)
  · intro r hr
    dsimp only at hr ⊢
    have hmem := List.mem_of_mem_filter hr
    have hrq := (List.mem_filter.mp hr).2
    simp only [Bool.not_eq_eq_eq_not, Bool.not_true, List.elem_eq_mem,
      decide_eq_false_iff_not] at hrq
    have hcnt := h8 r hmem
    rw [DB.countActive] at hcnt ⊢
    dsimp only
    rw [length_filter_filter_of_imp _ _ _ (fun b hb hp => by
      simp only [decide_eq_true_eq] at hp
      exact hkeep r.serial hrq b hb hp.1)]
    exact hcnt

/-- Helper: `pickLatest` returns nothing exactly on the empty candidate list
(`LIMIT 1` on a nonempty result always yields a row). -/
theorem pickLatest_cons_isSome (a : DB.AssignmentRow)
    (rest : List DB.AssignmentRow) : (DB.pickLatest (a :: rest)).isSome := by
  simp only [DB.pickLatest]
  cases DB.pickLatest rest with
  | none => rfl
  | some b =>
    dsimp only
    split <;> rfl

theorem pickLatest_eq_none (l : List DB.AssignmentRow) :
    DB.pickLatest l = none ↔ l = [] := by
  cases l with
  | nil => simp [DB.pickLatest]
  | cons a rest =>
    constructor
    · intro h
      have hs := pickLatest_cons_isSome a rest
      rw [h] at hs
      cases hs
    · intro h
      exact absurd h (by simp)

/-- The row `pickLatest` returns comes from the candidate list. -/
theorem pickLatest_mem (l : List DB.AssignmentRow) (a : DB.AssignmentRow)
    (h : DB.pickLatest l = some a) : a ∈ l := by
  induction l with
  | nil => cases h
  | cons b rest ih =>
    simp only [DB.pickLatest] at h
    cases hp : DB.pickLatest rest with
    | none =>
      rw [hp] at h
      dsimp only at h
      cases h
      exact List.mem_cons_self _ _
    | some c =>
      rw [hp] at h
      dsimp only at h
      split at h
      · cases h
        exact List.mem_cons_of_mem _ (ih hp)
      · cases h
        exact List.mem_cons_self _ _

/-- The fields of `unassign_serial` other than `assignments`: the serial's
pointer is cleared, everything else is untouched. -/
theorem unassign_shape (s : DB.DBState) (q : String) (force : Bool) :
    (DB.unassign_serial s q force).serials
        = s.serials.map (fun r =>
            if r.serial = q then { r with assigned_to := none } else r)
    ∧ (DB.unassign_serial s q force).materials = s.materials
    ∧ (DB.unassign_serial s q force).customers = s.customers
    ∧ (DB.unassign_serial s q force).next_aid = s.next_aid
    ∧ (DB.unassign_serial s q force).next_material_id = s.next_material_id
    ∧ (DB.unassign_serial s q force).now = s.now := by
  unfold DB.unassign_serial
  dsimp only
  split
  · split <;> exact ⟨rfl, rfl, rfl, rfl, rfl, rfl⟩
  · exact ⟨rfl, rfl, rfl, rfl, rfl, rfl⟩

/-- Embedding of `unassign_serial` with no active assignment leaves `assignments`
untouched. -/
theorem unassign_assignments_none (s : DB.DBState) (q : String) (force : Bool)
    (hp : DB.pickLatest
        (s.assignments.filter (fun a => a.serial = q ∧ a.deleted = false)) = none) :
    (DB.unassign_serial s q force).assignments = s.assignments := by
  unfold DB.unassign_serial
  dsimp only
  rw [hp]

/-- Soft `unassign_serial` with selected row `a` flips exactly the rows with
id `a.id` to `deleted`. -/
theorem unassign_assignments_some_soft (s : DB.DBState) (q : String)
    (a : DB.AssignmentRow)
    (hp : DB.pickLatest
        (s.assignments.filter (fun x => x.serial = q ∧ x.deleted = false)) = some a) :
    (DB.unassign_serial s q false).assignments
      = s.assignments.map (fun b =>
          if b.id = a.id then { b with deleted := true } else b) := by
  unfold DB.unassign_serial
  dsimp only
  rw [hp]
  rfl

/-- Forced `unassign_serial` with selected row `a` deletes the rows with id
`a.id`. -/
theorem unassign_assignments_some_force (s : DB.DBState) (q : String)
    (a : DB.AssignmentRow)
    (hp : DB.pickLatest
        (s.assignments.filter (fun x => x.serial = q ∧ x.deleted = false)) = some a) :
    (DB.unassign_serial s q true).assignments
      = s.assignments.filter (fun b => b.id ≠ a.id) := by
  unfold DB.unassign_serial
  dsimp only
  rw [hp]
  rfl

/-- Clearing `assigned_to` does not change a row's key. -/
theorem reset_serial (r : DB.SerialRow) (q : String) :
    (if r.serial = q then { r with assigned_to := none } else r).serial = r.serial := by
  by_cases h : r.serial = q <;> simp [h]

/-- Clearing `assigned_to` does not change a row's material. -/
theorem reset_material (r : DB.SerialRow) (q : String) :
    (if r.serial = q then { r with assigned_to := none } else r).material_id
      = r.material_id := by
  by_cases h : r.serial = q <;> simp [h]

/-- Soft-deleting by id does not change a record's id. -/
theorem flip_id (b : DB.AssignmentRow) (aid : Nat) :
    (if b.id = aid then { b with deleted := true } else b).id = b.id := by
  by_cases h : b.id = aid <;> simp [h]

/-- Soft-deleting by id does not change a record's serial. -/
theorem flip_serial (b : DB.AssignmentRow) (aid : Nat) :
    (if b.id = aid then { b with deleted := true } else b).serial = b.serial := by
  by_cases h : b.id = aid <;> simp [h]

/-- The serial keys survive the `assigned_to` reset map. -/
theorem reset_keys (l : List DB.SerialRow) (q : String) :
    ((l.map (fun r => if r.serial = q then { r with assigned_to := none } else r)).map
        (fun r => r.serial))
      = l.map (fun r => r.serial) := by
  rw [List.map_map]
  exact List.map_eq_map_iff.mpr (fun r _ => reset_serial r q)

/-- The record ids survive the soft-delete map. -/
theorem flip_ids (l : List DB.AssignmentRow) (aid : Nat) :
    ((l.map (fun b => if b.id = aid then { b with deleted := true } else b)).map
        (fun b => b.id))
      = l.map (fun b => b.id) := by
  rw [List.map_map]
  exact List.map_eq_map_iff.mpr (fun b _ => flip_id b aid)

/-- In an invariant-satisfying state, a serial that is present and has an
active assignment record has exactly that one: the candidate list of
`unassign_serial` is the singleton. -/
theorem cands_singleton (s : DB.DBState) (q : String) (a : DB.AssignmentRow)
    (h : DB.Inv s) (r : DB.SerialRow) (hrmem : r ∈ s.serials) (hrq : r.serial = q)
    (hamem : a ∈ s.assignments.filter (fun x => x.serial = q ∧ x.deleted = false)) :
    s.assignments.filter (fun x => x.serial = q ∧ x.deleted = false) = [a] := by
  have hcnt := h.serialInv r hrmem
  rw [DB.countActive, hrq] at hcnt
  have hlen : (s.assignments.filter
      (fun x => x.serial = q ∧ x.deleted = false)).length = 1 := by
    rcases hr : r.assigned_to with _ | c
    · rw [hr] at hcnt
      simp only [if_pos, List.length_eq_zero] at hcnt
      rw [hcnt] at hamem
      cases hamem
    · rw [hr] at hcnt
      simpa using hcnt
  obtain ⟨b, hb⟩ := List.length_eq_one.mp hlen
  rw [hb] at hamem ⊢
  rw [List.mem_singleton] at hamem
  rw [hamem]

/-- Embedding of `unassign_serial` preserves the invariant. -/
theorem inv_unassign (s : DB.DBState) (q : String) (force : Bool)
    (h : DB.Inv s) : DB.Inv (DB.unassign_serial s q force) := by
  obtain ⟨hshape1, hshape2, hshape3, hshape4, hshape5, hshape6⟩ := unassign_shape s q force
  have hinj : ∀ b ∈ s.assignments, ∀ c ∈ s.assignments, b.id = c.id → b = c :=
    fun b hb c hc hbc => List.inj_on_of_nodup_map h.asgNodup hb hc hbc
  have hasg : ∀ (P : List DB.AssignmentRow → Prop),
      (DB.pickLatest (s.assignments.filter
          (fun x => x.serial = q ∧ x.deleted = false)) = none →
        P s.assignments) →
      (∀ a, DB.pickLatest (s.assignments.filter
          (fun x => x.serial = q ∧ x.deleted = false)) = some a →
        (force = true →
          P (s.assignments.filter (fun b => b.id ≠ a.id))) ∧
        (force = false →
          P (s.assignments.map (fun b =>
              if b.id = a.id then { b with deleted := true } else b)))) →
      P (DB.unassign_serial s q force).assignments := by
    intro P hnone hsome
    cases hp : DB.pickLatest (s.assignments.filter
        (fun x => x.serial = q ∧ x.deleted = false)) with
    | none => rw [unassign_assignments_none s q force hp]; exact hnone hp
    | some a =>
      cases force with
      | true => rw [unassign_assignments_some_force s q a hp]; exact (hsome a hp).1 rfl
      | false => rw [unassign_assignments_some_soft s q a hp]; exact (hsome a hp).2 rfl
  refine ⟨?_, ?_, ?_, ?_, ?_, ?_, ?_, ?_⟩
  · rw [hshape1, reset_keys]
    exact h.serialsNodup
  · rw [hshape2]
    exact h.matsNodup
  · refine hasg (fun l => (l.map (fun b => b.id)).Nodup) (fun _ => h.asgNodup) ?_
    intro a _
    constructor
    · intro _
      exact List.Nodup.sublist
        (List.Sublist.map _ (List.filter_sublist s.assignments)) h.asgNodup
    · intro _
      rw [flip_ids]
      exact h.asgNodup
  · rw [hshape4]
    refine hasg (fun l => ∀ b ∈ l, b.id < s.next_aid) (fun _ => h.aidBound) ?_
    intro a _
    constructor
    · intro _ b hb
      exact h.aidBound b (List.mem_of_mem_filter hb)
    · intro _ b hb
      obtain ⟨b0, hb0, hb0b⟩ := List.mem_map.mp hb
      rw [← hb0b, flip_id]
      exact h.aidBound b0 hb0
  · rw [hshape2, hshape5]
    exact h.midBound
  · rw [hshape1]
    have hkeys : ∀ x, (∃ r ∈ s.serials, r.serial = x) →
        ∃ r2 ∈ s.serials.map (fun r =>
          if r.serial = q then { r with assigned_to := none } else r), r2.serial = x := by
      rintro x ⟨r, hr, hrx⟩
      exact ⟨_, List.mem_map_of_mem _ hr, (reset_serial r q).trans hrx⟩
    refine hasg (fun l => ∀ b ∈ l, ∃ r2 ∈ _, r2.serial = b.serial)
      (fun _ b hb => hkeys _ (h.serialFK b hb)) ?_
    intro a _
    constructor
    · intro _ b hb
      exact hkeys _ (h.serialFK b (List.mem_of_mem_filter hb))
    · intro _ b hb
      obtain ⟨b0, hb0, hb0b⟩ := List.mem_map.mp hb
      rw [← hb0b, flip_serial]
      exact hkeys _ (h.serialFK b0 hb0)
  · rw [hshape1, hshape2]
    intro r2 hr2
    obtain ⟨r, hr, hrr2⟩ := List.mem_map.mp hr2
    rw [← hrr2, reset_material]
    exact h.materialFK r hr
  · intro r2 hr2
    rw [hshape1] at hr2
    obtain ⟨r, hr, hrr2⟩ := List.mem_map.mp hr2
    rw [DB.countActive]
    by_cases hrq : r.serial = q
    · have hr2q : r2.serial = q := by rw [← hrr2, reset_serial, hrq]
      have hr2n : r2.assigned_to = none := by
        rw [← hrr2, if_pos hrq]
      rw [hr2q, hr2n, if_pos rfl, List.length_eq_zero, List.filter_eq_nil_iff]
      simp only [decide_eq_true_eq]
      refine hasg (fun l => ∀ b ∈ l, ¬(b.serial = q ∧ b.deleted = false)) ?_ ?_
      · intro hp b hb hbad
        have : b ∈ s.assignments.filter (fun x => x.serial = q ∧ x.deleted = false) :=
          List.mem_filter.mpr ⟨hb, by simpa using hbad⟩
        rw [(pickLatest_eq_none _).mp hp] at this
        cases this
      · intro a hp
        have hamem := pickLatest_mem _ a hp
        have hsing := cands_singleton s q a h r hr hrq hamem
        have haq : a.serial = q ∧ a.deleted = false := by
          have := (List.mem_filter.mp hamem).2
          simpa using this
        constructor
        · intro _ b hb hbad
          have hbmem := List.mem_of_mem_filter hb
          have hbne := (List.mem_filter.mp hb).2
          have : b ∈ s.assignments.filter
              (fun x => x.serial = q ∧ x.deleted = false) :=
            List.mem_filter.mpr ⟨hbmem, by simpa using hbad⟩
          rw [hsing, List.mem_singleton] at this
          rw [this] at hbne
          simp at hbne
        · intro _ b hb hbad
          obtain ⟨b0, hb0, hb0b⟩ := List.mem_map.mp hb
          by_cases hid : b0.id = a.id
          · have : b0 = a := hinj b0 hb0 a (List.mem_of_mem_filter hamem) hid
            rw [← hb0b, if_pos hid] at hbad
            simp at hbad
          · rw [← hb0b, if_neg hid] at hbad
            have : b0 ∈ s.assignments.filter
                (fun x => x.serial = q ∧ x.deleted = false) :=
              List.mem_filter.mpr ⟨hb0, by simpa using hbad⟩
            rw [hsing, List.mem_singleton] at this
            exact hid (by rw [this])
    · have hr2r : r2 = r := by rw [← hrr2, if_neg hrq]
      have hcnt := h.serialInv r hr
      rw [DB.countActive] at hcnt
      rw [hr2r]
      refine hasg (fun l => (l.filter
          (fun x => x.serial = r.serial ∧ x.deleted = false)).length
          = if r.assigned_to = none then 0 else 1) (fun _ => hcnt) ?_
      intro a hp
      have hamem := pickLatest_mem _ a hp
      have haq : a.serial = q ∧ a.deleted = false := by
        have := (List.mem_filter.mp hamem).2
        simpa using this
      have hane : ¬ (a.serial = r.serial ∧ a.deleted = false) := by
        rintro ⟨h1, -⟩
        exact hrq (by rw [← h1, haq.1])
      constructor
      · intro _
        rw [length_filter_filter_of_imp _ _ _ ?_]
        · exact hcnt
        · intro b hb hbp
          simp only [decide_eq_true_eq] at hbp
          simp only [ne_eq, decide_eq_true_eq]
          intro hid
          have : b = a := hinj b hb a (List.mem_of_mem_filter hamem) hid
          rw [this] at hbp
          exact hane hbp
      · intro _
        rw [length_filter_map_congr _ _ _ ?_]
        · exact hcnt
        · intro b hb
          by_cases hid : b.id = a.id
          · have hba : b = a := hinj b hb a (List.mem_of_mem_filter hamem) hid
            have hbs : b.serial = q := by rw [hba, haq.1]
            have hne : ¬ b.serial = r.serial := by
              intro hx
              exact hrq (by rw [← hx, hbs])
            rw [if_pos hid]
            simp [hne]
          · rw [if_neg hid]

/-- Setting `assigned_to` does not change a row's key. -/
theorem setc_serial (r : DB.SerialRow) (q c : String) :
    (if r.serial = q then { r with assigned_to := some c } else r).serial
      = r.serial := by
  by_cases h : r.serial = q <;> simp [h]

/-- Setting `assigned_to` does not change a row's material. -/
theorem setc_material (r : DB.SerialRow) (q c : String) :
    (if r.serial = q then { r with assigned_to := some c } else r).material_id
      = r.material_id := by
  by_cases h : r.serial = q <;> simp [h]

/-- The serial keys survive the `assigned_to` set map. -/
theorem setc_keys (l : List DB.SerialRow) (q c : String) :
    ((l.map (fun r => if r.serial = q then { r with assigned_to := some c } else r)).map
        (fun r => r.serial))
      = l.map (fun r => r.serial) := by
  rw [List.map_map]
  exact List.map_eq_map_iff.mpr (fun r _ => setc_serial r q c)

/-- The effect of a successful `assign_serial_to_customer`: the selected
serial row existed unassigned, exactly one assignment record with the fresh
autoincrement id was appended, and the serial was marked assigned. -/
theorem assign_ok_parts (s : DB.DBState) (c q : String) (s2 : DB.DBState)
    (hok : DB.assign_serial_to_customer s c q = .ok s2) :
    ∃ row ∈ s.serials, row.serial = q ∧ row.assigned_to = none
      ∧ ∃ rec : DB.AssignmentRow,
          rec.id = s.next_aid ∧ rec.customer_id = c ∧ rec.serial = q
          ∧ rec.material_id = row.material_id ∧ rec.deleted = false
          ∧ s2.assignments = s.assignments ++ [rec]
          ∧ s2.serials = s.serials.map (fun r =>
              if r.serial = q then { r with assigned_to := some c } else r)
          ∧ s2.customers = s.customers ∧ s2.materials = s.materials
          ∧ s2.next_aid = s.next_aid + 1
          ∧ s2.next_material_id = s.next_material_id ∧ s2.now = s.now := by
  unfold DB.assign_serial_to_customer at hok
  cases hfind : s.serials.find? (fun r => r.serial = q ∧ r.assigned_to = none) with
  | none => rw [hfind] at hok; cases hok
  | some row =>
    rw [hfind] at hok
    dsimp only at hok
    have hrowp : row.serial = q ∧ row.assigned_to = none := by
      have := List.find?_some hfind
      simpa using this
    have hrowmem : row ∈ s.serials := List.mem_of_find?_eq_some hfind
    cases hfind2 : s.materials.find? (fun m => m.id = row.material_id) with
    | none => rw [hfind2] at hok; cases hok
    | some mat =>
      rw [hfind2] at hok
      dsimp only at hok
      by_cases hc : s.customers.contains c
      · rw [if_pos hc] at hok
        cases hok
        exact ⟨row, hrowmem, hrowp.1, hrowp.2,
          ⟨s.next_aid, c, q, s.now, row.material_id, mat.name, mat.model,
            row.warranty_expiration, false⟩,
          rfl, rfl, rfl, rfl, rfl, rfl, rfl, rfl, rfl, rfl, rfl, rfl⟩
      · rw [if_neg hc] at hok
        cases hok

/-- A successful `assign_serial_to_customer` preserves the invariant. -/
theorem inv_assign_ok (s : DB.DBState) (c q : String) (s2 : DB.DBState)
    (hok : DB.assign_serial_to_customer s c q = .ok s2)
    (h : DB.Inv s) : DB.Inv s2 := by
  obtain ⟨row, hrowmem, hrowq, hrown, rec, hrid, hrc, hrs, hrm, hrd,
    hasg, hser, hcus, hmats, hnaid, hnmid, hnow⟩ := assign_ok_parts s c q s2 hok
  have hinjk : ∀ r1 ∈ s.serials, ∀ r2 ∈ s.serials, r1.serial = r2.serial → r1 = r2 :=
    fun r1 h1 r2 h2 h12 => List.inj_on_of_nodup_map h.serialsNodup h1 h2 h12
  refine ⟨?_, ?_, ?_, ?_, ?_, ?_, ?_, ?_⟩
  · rw [hser, setc_keys]
    exact h.serialsNodup
  · rw [hmats]
    exact h.matsNodup
  · rw [hasg, List.map_append, List.nodup_append, List.map_singleton,
      List.disjoint_singleton, hrid]
    refine ⟨h.asgNodup, List.nodup_singleton _, ?_⟩
    intro hx
    obtain ⟨b, hb, hbx⟩ := List.mem_map.mp hx
    have := h.aidBound b hb
    omega
  · rw [hasg, hnaid]
    intro a ha
    rcases List.mem_append.mp ha with ha | ha
    · have := h.aidBound a ha
      omega
    · rw [List.mem_singleton] at ha
      subst ha
      omega
  · rw [hmats, hnmid]
    exact h.midBound
  · rw [hasg, hser]
    intro a ha
    have hkeys : ∀ x, (∃ r ∈ s.serials, r.serial = x) →
        ∃ r2 ∈ s.serials.map (fun r =>
          if r.serial = q then { r with assigned_to := some c } else r),
          r2.serial = x := by
      rintro x ⟨r, hr, hrx⟩
      exact ⟨_, List.mem_map_of_mem _ hr, (setc_serial r q c).trans hrx⟩
    rcases List.mem_append.mp ha with ha | ha
    · exact hkeys _ (h.serialFK a ha)
    · rw [List.mem_singleton] at ha
      subst ha
      rw [hrs]
      exact hkeys _ ⟨row, hrowmem, hrowq⟩
  · rw [hser, hmats]
    intro r2 hr2
    obtain ⟨r, hr, hrr2⟩ := List.mem_map.mp hr2
    rw [← hrr2, setc_material]
    exact h.materialFK r hr
  · intro r2 hr2
    rw [hser] at hr2
    obtain ⟨r, hr, hrr2⟩ := List.mem_map.mp hr2
    rw [DB.countActive, hasg, List.filter_append]
    by_cases hrq : r.serial = q
    · have hr2q : r2.serial = q := by rw [← hrr2, setc_serial, hrq]
      have hr2a : r2.assigned_to = some c := by rw [← hrr2, if_pos hrq]
      have hrrow : r = row := hinjk r hr row hrowmem (by rw [hrq, hrowq])
      have hran : r.assigned_to = none := by rw [hrrow]; exact hrown
      have hz : (s.assignments.filter
          (fun x => decide (x.serial = q ∧ x.deleted = false))).length = 0 := by
        have hcnt0 := h.serialInv r hr
        rw [DB.countActive, hrq, hran] at hcnt0
        simpa using hcnt0
      rw [hr2q, hr2a]
      simp only [List.length_append, hz]
      simp [List.filter_cons, hrs, hrd]
    · have hr2r : r2 = r := by rw [← hrr2, if_neg hrq]
      have hcnt := h.serialInv r hr
      rw [DB.countActive] at hcnt
      rw [hr2r]
      have hrec0 : (List.filter (fun x =>
          decide (x.serial = r.serial ∧ x.deleted = false)) [rec]).length = 0 := by
        simp only [List.filter_cons, List.filter_nil]
        have : ¬ (rec.serial = r.serial ∧ rec.deleted = false) := by
          rintro ⟨h1, -⟩
          exact hrq (by rw [← h1]; exact hrs)
        simp [this]
      rw [List.length_append, hrec0, hcnt]
      simp

/-- Embedding fact: `runAssign` preserves the invariant (a failing assign leaves the state
unchanged). -/
theorem inv_runAssign (s : DB.DBState) (c q : String) (h : DB.Inv s) :
    DB.Inv (DB.runAssign s c q) := by
  unfold DB.runAssign
  cases ha : DB.assign_serial_to_customer s c q with
  | ok s2 => exact inv_assign_ok s c q s2 ha h
  | error e => exact h

/-- Setting a material's `used` flag does not change its id. -/
theorem used_id (m : DB.MaterialRow) (mid : Nat) :
    (if m.id = mid then { m with is_used := true } else m).id = m.id := by
  by_cases h : m.id = mid <;> simp [h]

/-- Flipping the `used` flag of a material preserves the invariant. -/
theorem inv_set_used (s : DB.DBState) (mid : Nat) (h : DB.Inv s) :
    DB.Inv { s with materials := s.materials.map (fun m =>
        if m.id = mid then { m with is_used := true } else m) } := by
  obtain ⟨h1, h2, h3, h4, h5, h6, h7, h8⟩ := h
  refine ⟨h1, ?_, h3, h4, ?_, h6, ?_, ?_⟩
  · dsimp only
    rw [List.map_map]
    have : ((fun m => m.id) ∘ fun m =>
        if m.id = mid then { m with is_used := true } else m)
        = fun (m : DB.MaterialRow) => m.id := by
      funext m
      exact used_id m mid
    rw [this]
    exact h2
  · intro m2 hm2
    dsimp only at hm2
    obtain ⟨m, hm, hmm2⟩ := List.mem_map.mp hm2
    rw [← hmm2, used_id]
    exact h5 m hm
  · intro r hr
    obtain ⟨m, hm, hmid⟩ := h7 r hr
    exact ⟨_, List.mem_map_of_mem _ hm, by rw [used_id]; exact hmid⟩
  · intro r hr
    have := h8 r hr
    rw [DB.countActive] at this ⊢
    exact this

/-- One `transfer_serials_to_used` iteration preserves the invariant. -/
theorem inv_transferStep (from? : Option String) (s : DB.DBState) (q : String)
    (h : DB.Inv s) : DB.Inv (DB.transferStep from? s q) := by
  unfold DB.transferStep
  cases hfind : s.serials.find? (fun r => r.serial = q) with
  | none => exact h
  | some row =>
    dsimp only
    split
    · exact inv_set_used (DB.unassign_serial s q false) row.material_id
        (inv_unassign s q false h)
    · exact inv_set_used s row.material_id h

/-- Embedding of `transfer_serials_to_used` preserves the invariant. -/
theorem inv_transfer (s : DB.DBState) (serials : List String)
    (from? : Option String) (h : DB.Inv s) :
    DB.Inv (DB.transfer_serials_to_used s serials from?) := by
  induction serials generalizing s with
  | nil => exact h
  | cons q rest ih =>
    exact ih (DB.transferStep from? s q) (inv_transferStep from? s q h)

/-- Every reachable state satisfies the invariant. -/
theorem inv_reachable (s : DB.DBState) (h : DB.Reachable s) : DB.Inv s := by
  induction h with
  | init => exact inv_initState
  | time s t _ ih => exact inv_time s t ih
  | addCustomer s cid _ ih => exact inv_add_customer s cid ih
  | addMaterial s n m u _ ih => exact inv_add_material s n m u ih
  | addSerials s mid qs _ ih => exact inv_add_serials s mid qs ih
  | deleteSerials s qs _ ih => exact inv_delete_serials s qs ih
  | assign s c q _ ih => exact inv_runAssign s c q ih
  | unassign s q f _ ih => exact inv_unassign s q f ih
  | transfer s qs fc _ ih => exact inv_transfer s qs fc ih

/-- Claim C1: in every reachable database state, a serial unit's `assigned_to`
is non-null if and only if exactly one assignment record with `deleted = 0`
references it.  `Reachable` closes the initial store under every operation
the claim names — `assign_serial_to_customer`, `unassign_serial`,
`transfer_serials_to_used`, `delete_serials`, `add_serials_to_material` —
plus customer/material creation and clock advance, so this is exactly
preservation of the invariant by those operations. -/
theorem C1_assigned_iff_unique_active (s : DB.DBState) (h : DB.Reachable s) :
    ∀ r ∈ s.serials, r.assigned_to ≠ none ↔ DB.countActive s r.serial = 1 := by
  intro r hr
  have hcnt := (inv_reachable s h).serialInv r hr
  rcases ha : r.assigned_to with _ | c
  · rw [ha] at hcnt
    simp only [if_pos] at hcnt
    constructor
    · intro hne
      exact absurd rfl hne
    · intro h1
      rw [hcnt] at h1
      cases h1
  · rw [ha] at hcnt
    simp only [reduceCtorEq, if_neg] at hcnt
    constructor
    · intro _
      exact hcnt
    · intro _
      simp

/-- Witness for C1 at a concrete reachable state (customer, material, two
serials, one assigned). -/
theorem C1_assigned_iff_unique_active_witness :
    (some "C001" : Option String) ≠ none ↔ DB.countActive c7base "S001" = 1 :=
  C1_assigned_iff_unique_active c7base
    (DB.Reachable.assign _ "C001" "S001"
      (DB.Reachable.addSerials _ 1 ["S001", "S002"]
        (DB.Reachable.addMaterial _ "Camera 4MP" "DS-2CD2343G2-I" false
          (DB.Reachable.addCustomer _ "C001" DB.Reachable.init))))
    ⟨"S001", 1, none, some "C001"⟩ (by decide)

/-- Claim C4: in a well-formed state, after a successful
`assign_serial_to_customer(c, q)` followed by `unassign_serial(q, force:=False)`,
the serial's `assigned_to` is null again, the assignment record created by
the assign (with the fresh autoincrement id) persists with `deleted = 1`,
and the total number of assignment records for `q` is exactly one more than
before the pair of calls. -/
theorem C4_assign_unassign_roundtrip (s : DB.DBState) (c q : String)
    (hinv : DB.Inv s) (s2 : DB.DBState)
    (hok : DB.assign_serial_to_customer s c q = .ok s2) :
    (∀ r ∈ (DB.unassign_serial s2 q false).serials,
      r.serial = q → r.assigned_to = none)
    ∧ (∃ rec ∈ (DB.unassign_serial s2 q false).assignments,
        rec.id = s.next_aid ∧ rec.serial = q ∧ rec.customer_id = c
          ∧ rec.deleted = true)
    ∧ ((DB.unassign_serial s2 q false).assignments.filter
          (fun a => a.serial = q)).length
        = (s.assignments.filter (fun a => a.serial = q)).length + 1 := by
  obtain ⟨row, hrowmem, hrowq, hrown, rec, hrid, hrc, hrs, hrm, hrd,
    hasg, hser, hcus, hmats, hnaid, hnmid, hnow⟩ := assign_ok_parts s c q s2 hok
  have hz : s.assignments.filter
      (fun x => decide (x.serial = q ∧ x.deleted = false)) = [] := by
    have hcnt0 := hinv.serialInv row hrowmem
    rw [DB.countActive, hrowq, hrown] at hcnt0
    simp only [if_pos, List.length_eq_zero] at hcnt0
    exact hcnt0
  have hcands : s2.assignments.filter
      (fun x => x.serial = q ∧ x.deleted = false) = [rec] := by
    rw [hasg, List.filter_append, hz, List.nil_append, List.filter_cons,
      List.filter_nil]
    simp [hrs, hrd]
  have hpick : DB.pickLatest (s2.assignments.filter
      (fun x => x.serial = q ∧ x.deleted = false)) = some rec := by
    rw [hcands]
    simp [DB.pickLatest]
  have hsoft := unassign_assignments_some_soft s2 q rec hpick
  obtain ⟨hshape1, -, -, -, -, -⟩ := unassign_shape s2 q false
  refine ⟨?_, ?_, ?_⟩
  · intro r hr hq
    rw [hshape1] at hr
    obtain ⟨r0, hr0, hr0r⟩ := List.mem_map.mp hr
    by_cases h0 : r0.serial = q
    · rw [← hr0r, if_pos h0]
    · rw [← hr0r, if_neg h0] at hq ⊢
      exact absurd hq h0
  · refine ⟨{ rec with deleted := true }, ?_, by simp [hrid], by simp [hrs],
      by simp [hrc], by simp⟩
    rw [hsoft]
    have hmem : rec ∈ s2.assignments := by
      rw [hasg]
      exact List.mem_append_right _ (List.mem_singleton.mpr rfl)
    have := List.mem_map_of_mem
      (fun b => if b.id = rec.id then { b with deleted := true } else b) hmem
    simpa using this
  · rw [hsoft, length_filter_map_congr _ _ _ (fun b _ => by
      by_cases hid : b.id = rec.id
      · rw [if_pos hid]
      · rw [if_neg hid]), hasg, List.filter_append, List.length_append,
      List.filter_cons, List.filter_nil]
    simp [hrs]

/-- Witness for C4: the concrete assign/unassign round trip on `c4base`. -/
theorem C4_assign_unassign_roundtrip_witness :
    (∀ r ∈ (DB.unassign_serial c7base "S001" false).serials,
      r.serial = "S001" → r.assigned_to = none)
    ∧ (∃ rec ∈ (DB.unassign_serial c7base "S001" false).assignments,
        rec.id = c4base.next_aid ∧ rec.serial = "S001" ∧ rec.customer_id = "C001"
          ∧ rec.deleted = true)
    ∧ ((DB.unassign_serial c7base "S001" false).assignments.filter
          (fun a => a.serial = "S001")).length
        = (c4base.assignments.filter (fun a => a.serial = "S001")).length + 1 :=
  C4_assign_unassign_roundtrip c4base "C001" "S001"
    (inv_reachable c4base
      (DB.Reachable.addSerials _ 1 ["S001", "S002"]
        (DB.Reachable.addMaterial _ "Camera 4MP" "DS-2CD2343G2-I" false
          (DB.Reachable.addCustomer _ "C001" DB.Reachable.init))))
    c7base rfl

end Warehouse
